import Mathlib

/-!
Verification development for the publisher core of log-courier
(src/lc-lib/publisher/publisher.go).

The dispatcher state and its operations are shallowly embedded as
executable Lean functions.  The singly-linked global in-flight queue
(firstPayload/lastPayload/nextPayload) is modelled as a `List`, which is
an exact model because the code only advances the head and appends at
the tail.  The ready list and the timeout list are likewise modelled as
`List`s (their pointer manipulations implement plain head insertion,
sorted splice and unlink-of-a-present-node, which are the standard list
operations); the full list, whose unlink code is pointer-level and
suspect, is modelled with explicit pointer fields in a separate model.

`PendingPayload` and `Endpoint` internals (HasAck, Complete, Rollup,
Ack, ProcessAck, ProcessPong, NumPending) live in repository files not
present under src/; those are modelled from the spec (sections 4.1 and
4.2) and are marked as such in their doc comments.
-/

namespace LogCourier

/-- The two timeout callbacks stored in `Endpoint.TimeoutFunc`:
`(*Publisher).timeoutPending` and `(*Publisher).timeoutKeepalive`. -/
inductive TKind where
  | timeoutPend : TKind
  | timeoutKeep : TKind
deriving Repr, DecidableEq

/-- One in-flight batch (PendingPayload).  `pid` is the implicit source-order
number of the spool, `owner` the endpoint it was dispatched to, `size` the
number of events.  Modelled from the spec (section 4.1): `ackCount` is the
number of leading events acknowledged so far; `rolledUp` is the ack count
already covered by a previous `Rollup()` read. -/
structure PendingPayload where
  pid : Nat
  owner : Nat
  size : Nat
  ackCount : Nat
  rolledUp : Nat
deriving Repr, DecidableEq

/-- Modelled from the spec: `HasAck()` is true iff `ackCount > 0`. -/
def PendingPayload.HasAck (p : PendingPayload) : Bool :=
  p.ackCount != 0

/-- Modelled from the spec: `Complete()` is true iff `ackCount == len(events)`. -/
def PendingPayload.Complete (p : PendingPayload) : Bool :=
  p.ackCount == p.size

/-- A registrar ack event: the rollup cursor covering events
`fromCount+1 .. toCount` of payload `pid`. -/
structure AckEvent where
  pid : Nat
  fromCount : Nat
  toCount : Nat
deriving Repr, DecidableEq

/-- Modelled from the spec: `Rollup()` returns the cursor covering all events
acked since the previous `Rollup()` call and resets the roll-up window. -/
def PendingPayload.Rollup (p : PendingPayload) : PendingPayload × AckEvent :=
  ({ p with rolledUp := p.ackCount }, ⟨p.pid, p.rolledUp, p.ackCount⟩)

/-- Registrar spool operations: `registrarSpool.Add(...)` and
`registrarSpool.Send()`. -/
inductive RegOp where
  | add : AckEvent → RegOp
  | send : RegOp
deriving Repr, DecidableEq

/-- Result of the head-ack drain of `Publisher.processAck`
(publisher.go lines 232-267). -/
structure DrainResult where
  queue : List PendingPayload
  outOfSync : Int
  numPayloads : Int
  ops : List RegOp
deriving Repr, DecidableEq

/-- The loop of `Publisher.processAck` for `payload == p.firstPayload`
(publisher.go lines 241-265), with the global queue as a list.  `oosLocal` is
the local variable `outOfSync` (initialised to `p.outOfSync + 1`), `oosCom`
the committed field `p.outOfSync`, `np` the field `p.numPayloads`.  The
commit `p.outOfSync = outOfSync` happens inside the loop, after each
advance, exactly as in the source. -/
def drainLoop : List PendingPayload → Int → Int → Int → List RegOp → DrainResult
  | [], _, oosCom, np, ops => ⟨[], oosCom, np, ops⟩
  | p :: rest, oosLocal, oosCom, np, ops =>
    if p.HasAck then
      let pr := p.Rollup
      let ops1 := ops ++ [RegOp.add pr.2]
      if pr.1.Complete then
        drainLoop rest (oosLocal - 1) (oosLocal - 1) (np - 1) ops1
      else
        ⟨pr.1 :: rest, oosCom, np, ops1⟩
    else
      ⟨p :: rest, oosCom, np, ops⟩

/-- `Publisher.processAck` head branch (publisher.go lines 232-267): run the
drain loop starting from `p.outOfSync + 1` and call `registrarSpool.Send()`
exactly once after the loop. -/
def processHeadAck (queue : List PendingPayload) (outOfSync numPayloads : Int) :
    DrainResult :=
  let r := drainLoop queue (outOfSync + 1) outOfSync numPayloads []
  { r with ops := r.ops ++ [RegOp.send] }

/-- A payload the drain marks off: it has an ack and is complete. -/
def ackedDone (p : PendingPayload) : Bool :=
  p.HasAck && p.Complete

/-- Number of payloads the drain marks off: the maximal prefix of payloads
that have an ack and are complete. -/
def drainCount (q : List PendingPayload) : Nat :=
  (q.takeWhile ackedDone).length

/-- Specification of the registrar operations the drain emits: one rollup per
marked-off payload, plus one rollup for the stopping payload when it has an
ack (and is necessarily incomplete). -/
def drainOpsSpec (q : List PendingPayload) : List RegOp :=
  (q.takeWhile ackedDone).map (fun p => RegOp.add p.Rollup.2) ++
    (match q.drop (drainCount q) with
     | p :: _ => if p.HasAck then [RegOp.add p.Rollup.2] else []
     | [] => [])

/-- Specification of the queue left by the drain: the marked-off prefix is
dropped; a stopping payload with an ack has its roll-up window reset. -/
def drainQueueSpec (q : List PendingPayload) : List PendingPayload :=
  match q.drop (drainCount q) with
  | p :: rest => (if p.HasAck then p.Rollup.1 else p) :: rest
  | [] => []

theorem rollup_complete (p : PendingPayload) : p.Rollup.1.Complete = p.Complete := by
  simp [PendingPayload.Rollup, PendingPayload.Complete]

theorem rollup_hasAck (p : PendingPayload) : p.Rollup.1.HasAck = p.HasAck := by
  simp [PendingPayload.Rollup, PendingPayload.HasAck]

theorem drainCount_cons_done {p : PendingPayload} (h : ackedDone p = true)
    (rest : List PendingPayload) :
    drainCount (p :: rest) = drainCount rest + 1 := by
  simp [drainCount, List.takeWhile, h, Nat.add_comm]

theorem drainCount_cons_stop {p : PendingPayload} (h : ackedDone p = false)
    (rest : List PendingPayload) :
    drainCount (p :: rest) = 0 := by
  simp [drainCount, List.takeWhile, h]

/-- Characterisation of the drain loop against the takeWhile-based
specification. -/
theorem drainLoop_eq (q : List PendingPayload) (a c np : Int) (ops : List RegOp) :
    drainLoop q a c np ops =
      ⟨drainQueueSpec q,
       if drainCount q = 0 then c else a - drainCount q,
       np - drainCount q,
       ops ++ drainOpsSpec q⟩ := by
  induction q generalizing a c np ops with
  | nil =>
    simp [drainLoop, drainQueueSpec, drainCount, drainOpsSpec]
  | cons p rest ih =>
    cases hA : p.HasAck with
    | false =>
      have hd : ackedDone p = false := by simp [ackedDone, hA]
      simp [drainLoop, hA, drainQueueSpec, drainOpsSpec,
        drainCount_cons_stop hd, List.takeWhile, hd]
    | true =>
      cases hC : p.Complete with
      | false =>
        have hd : ackedDone p = false := by simp [ackedDone, hA, hC]
        simp [drainLoop, hA, rollup_complete, hC, drainQueueSpec, drainOpsSpec,
          drainCount_cons_stop hd, List.takeWhile, hd]
      | true =>
        have hd : ackedDone p = true := by simp [ackedDone, hA, hC]
        have hcnt := drainCount_cons_done hd rest
        have hq : drainQueueSpec (p :: rest) = drainQueueSpec rest := by
          simp [drainQueueSpec, hcnt, List.drop_succ_cons]
        have hops : drainOpsSpec (p :: rest) =
            RegOp.add p.Rollup.2 :: drainOpsSpec rest := by
          simp [drainOpsSpec, hcnt, List.takeWhile, hd, drainCount, List.drop_succ_cons]
        rw [drainLoop]
        simp only [hA, if_true, rollup_complete, hC]
        rw [ih]
        simp only [hq, hops, hcnt, DrainResult.mk.injEq]
        refine ⟨trivial, ?_, ?_, ?_⟩
        · by_cases h0 : drainCount rest = 0 <;> simp [h0] <;> push_cast <;> ring
        · push_cast; ring
        · simp

/-- The dispatcher's view of one endpoint.  `Ready`, `Full`, `TimeoutDue` and
`TimeoutKind` (for `TimeoutFunc`) are the publisher-owned fields of the Go
`Endpoint`; `pendingCount` is the size of the endpoint's pending set
(`NumPending()`) and `pinging` its keepalive state, both modelled from the
spec (section 4.2) since the Endpoint source is not under src/. -/
structure Endpoint where
  eid : Nat
  Ready : Bool
  Full : Bool
  pendingCount : Nat
  pinging : Bool
  TimeoutDue : Nat
  TimeoutKind : Option TKind
deriving Repr, DecidableEq

/-- Modelled from the spec: `NumPending()`. -/
def Endpoint.NumPending (e : Endpoint) : Nat := e.pendingCount

/-- Dispatcher state (the fields of `Publisher` the claims are about).
`gateOpen` models whether `ifSpoolChan` is `p.spoolChan` (open) or nil
(closed); `shutdownOpen` models whether `onShutdown` is still readable;
`nextSpool` holds the parked spool as its event count.  Time is an abstract
`Nat` clock; `now + cfgTimeout` stands for `time.Now().Add(p.config.Timeout)`
and `now + keepaliveTimeout` for `time.Now().Add(keepalive_timeout)`.
The full list's pointer structure is carried in a dedicated model below;
here an endpoint's full-list membership is tracked through its `Full` flag,
which is the only full-list datum the operations in this model read. -/
structure PubState where
  cfgTimeout : Nat
  keepaliveTimeout : Nat
  now : Nat
  queue : List PendingPayload
  outOfSync : Int
  numPayloads : Int
  regOps : List RegOp
  eps : List Endpoint
  readyList : List Nat
  nextSpool : Option Nat
  gateOpen : Bool
  shutdownOpen : Bool
  shuttingDown : Bool
  nextPid : Nat
deriving Repr, DecidableEq

def getEp (st : PubState) (eid : Nat) : Option Endpoint :=
  st.eps.find? (fun e => e.eid == eid)

def setEp (st : PubState) (e : Endpoint) : PubState :=
  { st with eps := st.eps.map (fun x => if x.eid == e.eid then e else x) }

/-- `NumPending()` of the endpoint `eid` in the current state. -/
def pendOf (st : PubState) (eid : Nat) : Nat :=
  (getEp st eid).elim 0 Endpoint.NumPending

/-- Effect of `Publisher.registerTimeout` (publisher.go lines 392-443) on the
endpoint's own fields: `endpoint.TimeoutFunc = timeoutFunc` and
`endpoint.TimeoutDue = timeoutDue` (lines 408-409).  The sorted placement in
the timeout list and the timer reset are verified in the timeout-wheel model
below. -/
def registerTimeoutD (st : PubState) (eid due : Nat) (k : TKind) : PubState :=
  match getEp st eid with
  | none => st
  | some e => setEp st { e with TimeoutDue := due, TimeoutKind := some k }

/-- `Publisher.addReady`'s walk (publisher.go lines 368-384): insert before
the first node whose `NumPending()` is strictly greater than the new
endpoint's, which is also what the explicit head case (line 370) tests. -/
def insertReady (st : PubState) (eid : Nat) : List Nat → List Nat
  | [] => [eid]
  | x :: rest =>
    if pendOf st eid < pendOf st x then eid :: x :: rest
    else x :: insertReady st eid rest

/-- `Publisher.addReady` (publisher.go lines 363-385): set `Ready` and insert
into the ready list sorted by ascending `NumPending()`. -/
def addReadyD (st : PubState) (eid : Nat) : PubState :=
  match getEp st eid with
  | none => st
  | some e =>
    let st1 := setEp st { e with Ready := true }
    { st1 with readyList := insertReady st1 eid st1.readyList }

/-- `Publisher.sendPayload` (publisher.go lines 196-225).  The pending
timeout is registered before payload construction, exactly as in the source.
`NewPendingPayload` is modelled from the spec (section 4.1): construction
fails exactly on an empty event sequence (PayloadInvalid), in which case the
function returns with no further effect (the `TODO: Handle this` path).
`endpoint.SendPayload` is modelled from the spec (section 4.2): the payload
is enqueued into the endpoint's pending set; a transport error would go to
`failEndpoint`, which in the extant source only logs. -/
def sendPayloadD (st : PubState) (eid sz : Nat) : PubState :=
  match getEp st eid with
  | none => st
  | some e =>
    let st1 := if e.pendingCount == 0 then
        registerTimeoutD st eid (st.now + st.cfgTimeout) TKind.timeoutPend
      else st
    if sz == 0 then st1
    else
      let pl : PendingPayload := ⟨st1.nextPid, eid, sz, 0, 0⟩
      let st2 := { st1 with
        queue := st1.queue ++ [pl],
        numPayloads := st1.numPayloads + 1,
        nextPid := st1.nextPid + 1 }
      match getEp st2 eid with
      | none => st2
      | some e2 => setEp st2 { e2 with pendingCount := e2.pendingCount + 1 }

/-- `Publisher.registerReady` (publisher.go lines 321-361).  The full-list
push (lines 337-342) is a plain head insertion whose pointer fields live in
the full-list model; here it sets the `Full` flag (line 335). -/
def registerReadyD (st : PubState) (eid : Nat) : PubState :=
  match getEp st eid with
  | none => st
  | some e =>
    if e.Ready then st
    else if 4 ≤ e.pendingCount then
      if e.Full then st
      else setEp st { e with Full := true }
    else match st.nextSpool with
      | some sz =>
        let st1 := sendPayloadD st eid sz
        { st1 with nextSpool := none, gateOpen := true }
      | none =>
        let st1 := addReadyD st eid
        if e.TimeoutKind = none then
          registerTimeoutD st1 eid (st.now + st.keepaliveTimeout) TKind.timeoutKeep
        else st1

/-- Modelled from the spec: an ack message is applicable to payload `p` iff it
names a sequence within the payload (`1 ≤ seq ≤ size`), the payload is still
in the endpoint's pending set (complete payloads were removed on completion),
and the sequence does not regress below the current watermark.  Anything else
is a ProtocolError, which `Publisher.Run` routes to `failEndpoint` (a log
statement in the extant source). -/
def ackAdmissible (p : PendingPayload) (seq : Nat) : Bool :=
  seq != 0 && p.ackCount < p.size && p.ackCount ≤ seq && seq ≤ p.size

/-- The payload an ack from endpoint `eid` naming payload `pid` resolves to. -/
def findPayload (st : PubState) (eid pid : Nat) : Option PendingPayload :=
  st.queue.find? (fun p => p.owner == eid && p.pid == pid)

/-- The timeout re-arm after an ack (publisher.go lines 274-281): a pending
timeout at `now + config.Timeout` while payloads are outstanding, else a
keepalive timeout at `now + keepalive_timeout`. -/
def ackRearm (st2 : PubState) (eid : Nat) : PubState :=
  if pendOf st2 eid != 0 then
    registerTimeoutD st2 eid (st2.now + st2.cfgTimeout) TKind.timeoutPend
  else
    registerTimeoutD st2 eid (st2.now + st2.keepaliveTimeout) TKind.timeoutKeep

/-- The "no longer full" check after an ack (publisher.go lines 283-297):
when the endpoint is `Full` with fewer than 4 pending payloads it is
re-offered via `registerReady` (the full-list pointer writes are examined in
the full-list model). -/
def ackUnfull (st3 : PubState) (eid : Nat) : PubState :=
  match getEp st3 eid with
  | some e3 =>
    if e3.Full && e3.pendingCount < 4 then registerReadyD st3 eid else st3
  | none => st3

/-- `Publisher.processAck` (publisher.go lines 227-300).
`endpoint.ProcessAck` is modelled from the spec (section 4.2): it applies the
ack to the matching payload (`Ack(sequence)` raises `ackCount` to the
maximum, section 4.1), reports whether it was the payload's first ack, and
removes the payload from the endpoint's pending set when it completes.  The
pointer identity `payload == p.firstPayload` is pid equality (payload pids
are distinct by construction).  The full-list unlink in the final branch
(lines 287-294) touches only full-list pointer fields, which are examined in
the dedicated full-list model; its `registerReady` call is embedded here. -/
def processAckD (st : PubState) (eid pid seq : Nat) : PubState :=
  match getEp st eid, findPayload st eid pid with
  | some e, some p =>
    if ackAdmissible p seq then
      let p1 := { p with ackCount := max p.ackCount seq }
      let firstAck := p.ackCount == 0
      let q1 := st.queue.map (fun x => if x.pid == p.pid then p1 else x)
      let e1 := if p1.Complete then { e with pendingCount := e.pendingCount - 1 } else e
      let stq := setEp { st with queue := q1 } e1
      let st2 :=
        match stq.queue with
        | h :: _ =>
          if h.pid == pid then
            let r := processHeadAck stq.queue stq.outOfSync stq.numPayloads
            { stq with queue := r.queue, outOfSync := r.outOfSync,
                       numPayloads := r.numPayloads, regOps := stq.regOps ++ r.ops }
          else if firstAck then { stq with outOfSync := stq.outOfSync + 1 } else stq
        | [] => stq
      ackUnfull (ackRearm st2 eid) eid
    else st
  | _, _ => st

/-- `Publisher.processPong` (publisher.go lines 302-314).
`endpoint.ProcessPong` is modelled from the spec (section 4.2): it fails with
ProtocolError when no ping is outstanding (the error goes to `failEndpoint`,
a log statement).  On success with `NumPending() == 0` the source arms the
`timeoutKeepalive` callback at `time.Now().Add(p.config.Timeout)`
(line 310). -/
def processPongD (st : PubState) (eid : Nat) : PubState :=
  match getEp st eid with
  | none => st
  | some e =>
    if !e.pinging then st
    else
      let st1 := setEp st { e with pinging := false }
      if e.pendingCount == 0 then
        registerTimeoutD st1 eid (st.now + st.cfgTimeout) TKind.timeoutKeep
      else st1

/-- The six event sources of the dispatcher loop (publisher.go lines 113-185). -/
inductive PubEvent where
  | evReady : Nat → PubEvent
  | evSpool : Nat → PubEvent
  | evAck : Nat → Nat → Nat → PubEvent
  | evPong : Nat → PubEvent
  | evFail : Nat → PubEvent
  | evTimer : PubEvent
  | evStats : PubEvent
  | evShutdown : PubEvent
deriving Repr, DecidableEq

/-- One iteration of `Publisher.Run`'s select loop (publisher.go lines
114-185).  The returned Bool is true iff the iteration executes
`break PublishLoop`.  A spool event fires only while the gate is open
(`ifSpoolChan` non-nil) and a shutdown event only while `onShutdown` is
readable; events on a nil channel cannot be selected, modelled as identity.
`failEndpoint` only logs in the extant source, and the timer and stats arms
touch none of the fields of this model (the timer drain operates on the
timeout wheel, modelled separately, and its callbacks only call
`registerTimeout`, `SendPing` and `failEndpoint`). -/
def stepD (st : PubState) : PubEvent → PubState × Bool
  | .evReady eid => (registerReadyD st eid, false)
  | .evSpool sz =>
    if st.gateOpen then
      match st.readyList with
      | h :: t =>
        let st1 := match getEp st h with
          | some e => setEp st { e with Ready := false }
          | none => st
        let st2 := sendPayloadD st1 h sz
        ({ st2 with readyList := t }, false)
      | [] => ({ st with nextSpool := some sz, gateOpen := false }, false)
    else (st, false)
  | .evAck eid pid seq =>
    let st1 := processAckD st eid pid seq
    (st1, st1.shuttingDown && st1.numPayloads == 0)
  | .evPong eid => (processPongD st eid, false)
  | .evFail _ => (st, false)
  | .evTimer => (st, false)
  | .evStats => (st, false)
  | .evShutdown =>
    if st.shutdownOpen then
      if st.numPayloads == 0 then (st, true)
      else ({ st with shuttingDown := true, gateOpen := false,
                      shutdownOpen := false }, false)
    else (st, false)

/-- What the publisher does after leaving the loop (publisher.go lines
187-193): `endpointSink.Shutdown()`, `endpointSink.Wait()`,
`registrarSpool.Close()`, `p.Done()`. -/
inductive ExitAction where
  | sinkShutdown : ExitAction
  | sinkWait : ExitAction
  | registrarClose : ExitAction
  | lifecycleDone : ExitAction
deriving Repr, DecidableEq

def exitSeq : List ExitAction :=
  [.sinkShutdown, .sinkWait, .registrarClose, .lifecycleDone]

/-- Straight-line epilogue of `Publisher.Run`: runs exactly when the loop was
broken. -/
def finishD (r : PubState × Bool) : List ExitAction :=
  if r.2 then exitSeq else []

/-- Iterate the loop over a sequence of delivered events, stopping at
`break PublishLoop`. -/
def runD : PubState → List PubEvent → PubState × Bool
  | st, [] => (st, false)
  | st, ev :: evs =>
    let r := stepD st ev
    if r.2 then (r.1, true) else runD r.1 evs

/-!  Timeout wheel (publisher.go lines 150-170, 387-443).  The doubly-linked
timeout list is modelled as a list of entries; its unlink (lines 395-406)
correctly removes a present node and its walk (lines 412-438) splices before
the first node with a strictly later due-time, so a list is an exact model.
`armed` models whether the underlying `timeoutTimer` is armed: `NewPublisher`
stops it at construction (lines 81-84), `setTimer` (lines 387-390) resets it,
and a fire disarms it until the next reset. -/

/-- One node of the timeout list: the endpoint with its `TimeoutDue` and
`TimeoutFunc`. -/
structure TEntry where
  eid : Nat
  due : Nat
  kind : TKind
deriving Repr, DecidableEq

/-- Timeout-wheel state: the list from `timeoutHead` in `NextTimeout` order,
plus whether the underlying timer is armed. -/
structure TState where
  entries : List TEntry
  armed : Bool
deriving Repr, DecidableEq

/-- The wheel state `NewPublisher` leaves behind (publisher.go lines 81-84):
no registered timeouts and the timer stopped. -/
def initialTState : TState := ⟨[], false⟩

/-- The unlink of `registerTimeout` (publisher.go lines 395-406): remove the
endpoint's node if it has one (`TimeoutFunc != nil` means exactly that the
endpoint is in the list, spec invariant P6), reporting whether the removed
node was the head (`PrevTimeout == nil`), which is when the source sets its
`setTimer` flag. -/
def removeEntry (eid : Nat) : List TEntry → List TEntry × Bool
  | [] => ([], false)
  | e :: rest =>
    if e.eid == eid then (rest, true)
    else
      let r := removeEntry eid rest
      (e :: r.1, false)

/-- The sorted insertion of `registerTimeout` (publisher.go lines 412-438):
insert before the first node whose due-time is strictly after the new one
(`next.TimeoutDue.After(timeoutDue)`), reporting whether the node became the
head, which is when the source calls `setTimer` unconditionally. -/
def insertEntry (e : TEntry) : List TEntry → List TEntry × Bool
  | [] => ([e], true)
  | x :: rest =>
    if e.due < x.due then (e :: x :: rest, true)
    else
      let r := insertEntry e rest
      (x :: r.1, false)

/-- `Publisher.registerTimeout` (publisher.go lines 392-443) on the wheel:
unlink if present, insert in due order, and reset the timer exactly when the
node was removed from the head or inserted at the head.  Returns the reset
decision alongside the new state. -/
def registerTimeoutW (st : TState) (eid due : Nat) (k : TKind) : TState × Bool :=
  let rm := removeEntry eid st.entries
  let ins := insertEntry ⟨eid, due, k⟩ rm.1
  let reset := ins.2 || rm.2
  (⟨ins.1, if reset then true else st.armed⟩, reset)

/-- What a fired timeout callback does to the wheel (publisher.go lines
445-462): `timeoutPending` calls `failEndpoint` (a log statement);
`timeoutKeepalive` re-registers the endpoint with a pending-timeout at
`now + config.Timeout` (its `SendPing` touches only the transport). -/
def runTCallback (cfgT nowT : Nat) (st : TState) (e : TEntry) : TState :=
  match e.kind with
  | .timeoutPend => st
  | .timeoutKeep => (registerTimeoutW st e.eid (nowT + cfgT) .timeoutPend).1

/-- The drain loop of the timer arm (publisher.go lines 152-164): pop the
head, nil its `TimeoutFunc` (the pop removes the node, so a re-registration
from inside the callback finds no node to unlink), run the callback, and
continue while the new head's due-time is not after `now`.  Alongside the
state it returns the processed entries in order, each tagged with whether its
endpoint was still in the list at the moment its callback ran (always false:
the function field was nilled first). -/
def fireLoop (cfgT nowT : Nat) : Nat → TState → TState × List (TEntry × Bool)
  | 0, st => (st, [])
  | fuel + 1, st =>
    match st.entries with
    | [] => (st, [])
    | e :: rest =>
      let flag := (rest.map TEntry.eid).contains e.eid
      let st1 := runTCallback cfgT nowT ⟨rest, st.armed⟩ e
      let cont := match st1.entries with
        | [] => false
        | e2 :: _ => !(nowT < e2.due)
      if cont then
        let r := fireLoop cfgT nowT fuel st1
        (r.1, (e, flag) :: r.2)
      else (st1, [(e, flag)])

/-- The full timer arm (publisher.go lines 150-170): a fire consumes the
arming, the drain loop runs, and the timer is rearmed via `setTimer` iff the
list still has a head.  The empty-list case at the loop's first pop is the
nil dereference of `p.timeoutHead`; the safety claim is exactly that an
armed timer implies a non-empty list. -/
def fireTimer (cfgT nowT : Nat) (st : TState) : TState × List (TEntry × Bool) :=
  let r := fireLoop cfgT nowT (2 * st.entries.length + 2) ⟨st.entries, false⟩
  match r.1.entries with
  | [] => r
  | _ :: _ => (⟨r.1.entries, true⟩, r.2)

/-!  Full list (publisher.go lines 283-297, 337-342).  The unlink performed
when an endpoint drops below the full threshold manipulates the doubly-linked
pointers directly — and, in the `PrevFull != nil` branch, writes
`endpoint.PrevFull` instead of the predecessor's `NextFull` — so this model
keeps the pointer fields explicit. -/

/-- An endpoint as seen by the full list: its intrusive `PrevFull`/`NextFull`
pointers (as endpoint ids), the `Full` and `Ready` flags and its pending
count. -/
structure FEndpoint where
  eid : Nat
  PrevFull : Option Nat
  NextFull : Option Nat
  Full : Bool
  Ready : Bool
  pendingCount : Nat
deriving Repr, DecidableEq

/-- Heap of endpoints plus the `fullHead` pointer. -/
structure FState where
  fullHead : Option Nat
  eps : List FEndpoint
deriving Repr, DecidableEq

def fGet (st : FState) (eid : Nat) : Option FEndpoint :=
  st.eps.find? (fun e => e.eid == eid)

def fSet (st : FState) (e : FEndpoint) : FState :=
  { st with eps := st.eps.map (fun x => if x.eid == e.eid then e else x) }

/-- The "endpoint is no longer full" branch of `Publisher.processAck`
(publisher.go lines 285-297), embedded statement by statement:

  if endpoint.PrevFull == nil { p.fullHead = endpoint.NextFull }
  else { endpoint.PrevFull = endpoint.NextFull }        // sic: writes the
                                                        // endpoint itself
  if endpoint.NextFull != nil {
    endpoint.NextFull.PrevFull = endpoint.PrevFull      // reads the value
  }                                                     // written above
  p.registerReady(endpoint)

With pending below the threshold and no parked spool, `registerReady` lands
in `addReady`, which sets the `Ready` flag (ready-list placement is in the
dispatcher model). -/
def unfullStep (st : FState) (eid : Nat) : FState :=
  match fGet st eid with
  | none => st
  | some e =>
    if e.Full && e.pendingCount < 4 then
      let st1 :=
        match e.PrevFull with
        | none => { st with fullHead := e.NextFull }
        | some _ => fSet st { e with PrevFull := e.NextFull }
      let st2 :=
        match e.NextFull with
        | none => st1
        | some nid =>
          match fGet st1 eid, fGet st1 nid with
          | some ecur, some nxt => fSet st1 { nxt with PrevFull := ecur.PrevFull }
          | _, _ => st1
      match fGet st2 eid with
      | some e2 => fSet st2 { e2 with Ready := true }
      | none => st2
    else st

/-- The endpoints reachable from `fullHead` by chasing `NextFull`, with fuel
against pointer cycles. -/
def fullChain (st : FState) : Nat → Option Nat → List Nat
  | 0, _ => []
  | _, none => []
  | fuel + 1, some eid =>
    eid :: (match fGet st eid with
            | some e => fullChain st fuel e.NextFull
            | none => [])

/-!  Claim C1: the head-ack drain. -/

/-- The pid a registrar operation reports, if it is a rollup. -/
def emittedPid : RegOp → Option Nat
  | .add ev => some ev.pid
  | .send => none

theorem drop_drainCount (q : List PendingPayload) :
    q.drop (drainCount q) = q.dropWhile ackedDone := by
  calc q.drop (drainCount q)
      = ((q.takeWhile ackedDone) ++ q.dropWhile ackedDone).drop
          (q.takeWhile ackedDone).length := by
        rw [List.takeWhile_append_dropWhile]; rfl
    _ = q.dropWhile ackedDone := List.drop_left _ _

theorem send_not_mem_drainOpsSpec (q : List PendingPayload) :
    RegOp.send ∉ drainOpsSpec q := by
  intro h
  rcases List.mem_append.mp h with h1 | h1
  · rcases List.mem_map.mp h1 with ⟨p, _, hp⟩
    exact RegOp.noConfusion hp
  · revert h1
    cases q.drop (drainCount q) with
    | nil => simp
    | cons p rest =>
      by_cases hA : p.HasAck = true <;> simp [hA]

theorem emitted_drainOpsSpec (q : List PendingPayload) :
    (drainOpsSpec q).filterMap emittedPid =
      (q.takeWhile ackedDone).map PendingPayload.pid ++
        (match q.dropWhile ackedDone with
         | p :: _ => if p.HasAck then [p.pid] else []
         | [] => []) := by
  rw [drainOpsSpec, List.filterMap_append, List.filterMap_map, drop_drainCount]
  congr 1
  · induction q.takeWhile ackedDone with
    | nil => rfl
    | cons p rest ih =>
      simp only [List.filterMap_cons, List.map_cons, Function.comp_apply]
      rw [show emittedPid (RegOp.add p.Rollup.2) = some p.pid from rfl] at *
      simpa using ih
  · cases q.dropWhile ackedDone with
    | nil => rfl
    | cons p rest =>
      by_cases hA : p.HasAck = true <;> simp [hA, emittedPid, PendingPayload.Rollup]

theorem stopper_sublist (q : List PendingPayload) :
    ((q.takeWhile ackedDone).map PendingPayload.pid ++
      (match q.dropWhile ackedDone with
       | p :: _ => if p.HasAck then [p.pid] else []
       | [] => [])).Sublist (q.map PendingPayload.pid) := by
  conv_rhs =>
    rw [← List.takeWhile_append_dropWhile ackedDone q, List.map_append]
  refine List.Sublist.append (List.Sublist.refl _) ?_
  cases q.dropWhile ackedDone with
  | nil => simp
  | cons p rest =>
    by_cases hA : p.HasAck = true <;> simp [hA]

/-- C1: for an ack on the payload at the head of the global in-flight queue,
the drain of `processAck` emits exactly one rollup per payload along the
maximal contiguous prefix of acked payloads, stopping after the first payload
that is not complete; it drops each completed payload from the head of the
queue, decrements `numPayloads` once per completed payload, commits
`outOfSync` to the value decremented once per completed payload from the
starting `outOfSync + 1`, and appends exactly one `Send` after the loop; the
rollup pids are the marked-off prefix in strictly ascending source order. -/
theorem head_ack_drain_ordered (q : List PendingPayload) (oos np : Int)
    (hpid : (q.map PendingPayload.pid).Pairwise (· < ·)) :
    (processHeadAck q oos np).ops = drainOpsSpec q ++ [RegOp.send] ∧
    (processHeadAck q oos np).queue = drainQueueSpec q ∧
    (processHeadAck q oos np).numPayloads = np - drainCount q ∧
    (processHeadAck q oos np).outOfSync =
      (if drainCount q = 0 then oos else oos + 1 - drainCount q) ∧
    (processHeadAck q oos np).ops.count RegOp.send = 1 ∧
    (processHeadAck q oos np).ops.getLast? = some RegOp.send ∧
    (processHeadAck q oos np).ops.filterMap emittedPid =
      (q.takeWhile ackedDone).map PendingPayload.pid ++
        (match q.dropWhile ackedDone with
         | p :: _ => if p.HasAck then [p.pid] else []
         | [] => []) ∧
    ((processHeadAck q oos np).ops.filterMap emittedPid).Pairwise (· < ·) := by
  have hops : (processHeadAck q oos np).ops = drainOpsSpec q ++ [RegOp.send] := by
    rw [processHeadAck, drainLoop_eq]
    simp
  have hemit : (processHeadAck q oos np).ops.filterMap emittedPid =
      (q.takeWhile ackedDone).map PendingPayload.pid ++
        (match q.dropWhile ackedDone with
         | p :: _ => if p.HasAck then [p.pid] else []
         | [] => []) := by
    rw [hops, List.filterMap_append, emitted_drainOpsSpec]
    simp [emittedPid]
  refine ⟨hops, ?_, ?_, ?_, ?_, ?_, hemit, ?_⟩
  · rw [processHeadAck, drainLoop_eq]
  · rw [processHeadAck, drainLoop_eq]
  · rw [processHeadAck, drainLoop_eq]
  · rw [hops, List.count_append]
    have h0 : (drainOpsSpec q).count RegOp.send = 0 :=
      List.count_eq_zero.mpr (send_not_mem_drainOpsSpec q)
    simp [h0, List.count_singleton]
  · rw [hops, List.getLast?_concat]
  · rw [hemit]
    exact List.Pairwise.sublist (stopper_sublist q) hpid

/-- Witness for `head_ack_drain_ordered`: a queue holding a completed payload,
a partially acked payload and an unacked payload. -/
theorem head_ack_drain_ordered_witness :
    (([⟨0, 1, 2, 2, 0⟩, ⟨1, 1, 2, 1, 0⟩, ⟨2, 1, 3, 0, 0⟩] :
        List PendingPayload).map PendingPayload.pid).Pairwise (· < ·) ∧
    (processHeadAck [⟨0, 1, 2, 2, 0⟩, ⟨1, 1, 2, 1, 0⟩, ⟨2, 1, 3, 0, 0⟩] 1 3).ops =
      drainOpsSpec [⟨0, 1, 2, 2, 0⟩, ⟨1, 1, 2, 1, 0⟩, ⟨2, 1, 3, 0, 0⟩] ++
        [RegOp.send] ∧
    (processHeadAck [⟨0, 1, 2, 2, 0⟩, ⟨1, 1, 2, 1, 0⟩, ⟨2, 1, 3, 0, 0⟩] 1 3).queue =
      drainQueueSpec [⟨0, 1, 2, 2, 0⟩, ⟨1, 1, 2, 1, 0⟩, ⟨2, 1, 3, 0, 0⟩] := by
  have h := head_ack_drain_ordered
    [⟨0, 1, 2, 2, 0⟩, ⟨1, 1, 2, 1, 0⟩, ⟨2, 1, 3, 0, 0⟩] 1 3 (by decide)
  exact ⟨by decide, h.1, h.2.1⟩

/-!  Claim C2: the full-list unlink in processAck. -/

/-- A two-endpoint full list: endpoint 1 is the head, endpoint 2 its
successor; an ack has just dropped endpoint 2 to 3 pending payloads. -/
def fStateTwo : FState :=
  ⟨some 1, [⟨1, none, some 2, true, false, 5⟩, ⟨2, some 1, none, true, false, 3⟩]⟩

/-- C2, evaluated at the failing input: when the ack drops a *non-head* full
endpoint below the threshold, the source's unlink writes
`endpoint.PrevFull = endpoint.NextFull` instead of updating the
predecessor's `NextFull`, so after the branch the predecessor still points at
the endpoint — the endpoint remains reachable from `fullHead` while
`registerReady` has simultaneously marked it ready, violating the
at-most-one-list invariant the claim asserts. -/
theorem full_unlink_skips_predecessor :
    (fGet (unfullStep fStateTwo 2) 1).map FEndpoint.NextFull = some (some 2) ∧
    (fGet (unfullStep fStateTwo 2) 2).map FEndpoint.Ready = some true ∧
    fullChain (unfullStep fStateTwo 2) 2 (unfullStep fStateTwo 2).fullHead =
      [1, 2] ∧
    (fGet (unfullStep fStateTwo 2) 2).map FEndpoint.PrevFull = some none := by
  decide

/-!  Plumbing lemmas about the endpoint store. -/

@[simp] theorem setEp_queue (st : PubState) (e : Endpoint) :
    (setEp st e).queue = st.queue := rfl

@[simp] theorem setEp_outOfSync (st : PubState) (e : Endpoint) :
    (setEp st e).outOfSync = st.outOfSync := rfl

@[simp] theorem setEp_numPayloads (st : PubState) (e : Endpoint) :
    (setEp st e).numPayloads = st.numPayloads := rfl

@[simp] theorem setEp_regOps (st : PubState) (e : Endpoint) :
    (setEp st e).regOps = st.regOps := rfl

@[simp] theorem setEp_readyList (st : PubState) (e : Endpoint) :
    (setEp st e).readyList = st.readyList := rfl

@[simp] theorem setEp_nextSpool (st : PubState) (e : Endpoint) :
    (setEp st e).nextSpool = st.nextSpool := rfl

@[simp] theorem setEp_gateOpen (st : PubState) (e : Endpoint) :
    (setEp st e).gateOpen = st.gateOpen := rfl

@[simp] theorem setEp_shutdownOpen (st : PubState) (e : Endpoint) :
    (setEp st e).shutdownOpen = st.shutdownOpen := rfl

@[simp] theorem setEp_shuttingDown (st : PubState) (e : Endpoint) :
    (setEp st e).shuttingDown = st.shuttingDown := rfl

@[simp] theorem setEp_now (st : PubState) (e : Endpoint) :
    (setEp st e).now = st.now := rfl

@[simp] theorem setEp_cfgTimeout (st : PubState) (e : Endpoint) :
    (setEp st e).cfgTimeout = st.cfgTimeout := rfl

@[simp] theorem setEp_keepaliveTimeout (st : PubState) (e : Endpoint) :
    (setEp st e).keepaliveTimeout = st.keepaliveTimeout := rfl

@[simp] theorem setEp_nextPid (st : PubState) (e : Endpoint) :
    (setEp st e).nextPid = st.nextPid := rfl

theorem eid_of_getEp {st : PubState} {x : Nat} {e : Endpoint}
    (h : getEp st x = some e) : e.eid = x := by
  have := List.find?_some h
  simpa using this

theorem getEp_setEp (st : PubState) (e : Endpoint) (x : Nat) :
    getEp (setEp st e) x =
      (getEp st x).map (fun old => if old.eid == e.eid then e else old) := by
  unfold getEp setEp
  simp only [List.find?_map]
  have hpf : ((fun y : Endpoint => y.eid == x) ∘
      fun old : Endpoint => if old.eid == e.eid then e else old) =
      fun y : Endpoint => y.eid == x := by
    funext old
    by_cases h : old.eid == e.eid
    · have : old.eid = e.eid := by simpa using h
      simp [Function.comp, h, this]
    · simp [Function.comp, h]
  rw [hpf]

theorem getEp_setEp_self {st : PubState} {x : Nat} {e e' : Endpoint}
    (h : getEp st x = some e) (he : e'.eid = e.eid) :
    getEp (setEp st e') x = some e' := by
  rw [getEp_setEp, h]
  have hx : e.eid = x := eid_of_getEp h
  simp [he ▸ hx, ← he, hx]

theorem getEp_setEp_other {st : PubState} {x : Nat} {e' : Endpoint}
    (h : e'.eid ≠ x) : getEp (setEp st e') x = getEp st x := by
  rw [getEp_setEp]
  cases hx : getEp st x with
  | none => rfl
  | some old =>
    have hox : old.eid = x := eid_of_getEp hx
    have hne : (old.eid == e'.eid) = false := by
      simp only [beq_eq_false_iff_ne, ne_eq]
      intro hc
      exact h (hc ▸ hox)
    simp [hne]
    intro hc
    exact absurd (hc ▸ hox) h

theorem pendOf_setEp_same {st : PubState} {e e' : Endpoint}
    (h : getEp st e'.eid = some e) (hp : e'.pendingCount = e.pendingCount)
    (x : Nat) : pendOf (setEp st e') x = pendOf st x := by
  by_cases hx : e'.eid = x
  · rw [pendOf, pendOf, ← hx, getEp_setEp_self h (eid_of_getEp h).symm, h]
    simp [Endpoint.NumPending, hp]
  · rw [pendOf, pendOf, getEp_setEp_other hx]

theorem registerTimeoutD_queue (st : PubState) (i d : Nat) (k : TKind) :
    (registerTimeoutD st i d k).queue = st.queue := by
  unfold registerTimeoutD
  cases getEp st i <;> simp

theorem registerTimeoutD_outOfSync (st : PubState) (i d : Nat) (k : TKind) :
    (registerTimeoutD st i d k).outOfSync = st.outOfSync := by
  unfold registerTimeoutD
  cases getEp st i <;> simp

theorem registerTimeoutD_numPayloads (st : PubState) (i d : Nat) (k : TKind) :
    (registerTimeoutD st i d k).numPayloads = st.numPayloads := by
  unfold registerTimeoutD
  cases getEp st i <;> simp

theorem registerTimeoutD_regOps (st : PubState) (i d : Nat) (k : TKind) :
    (registerTimeoutD st i d k).regOps = st.regOps := by
  unfold registerTimeoutD
  cases getEp st i <;> simp

theorem registerTimeoutD_readyList (st : PubState) (i d : Nat) (k : TKind) :
    (registerTimeoutD st i d k).readyList = st.readyList := by
  unfold registerTimeoutD
  cases getEp st i <;> simp

theorem registerTimeoutD_nextSpool (st : PubState) (i d : Nat) (k : TKind) :
    (registerTimeoutD st i d k).nextSpool = st.nextSpool := by
  unfold registerTimeoutD
  cases getEp st i <;> simp

theorem registerTimeoutD_gateOpen (st : PubState) (i d : Nat) (k : TKind) :
    (registerTimeoutD st i d k).gateOpen = st.gateOpen := by
  unfold registerTimeoutD
  cases getEp st i <;> simp

theorem registerTimeoutD_pendOf (st : PubState) (i d : Nat) (k : TKind)
    (x : Nat) : pendOf (registerTimeoutD st i d k) x = pendOf st x := by
  unfold registerTimeoutD
  cases h : getEp st i with
  | none => rfl
  | some e =>
    have hei : e.eid = i := eid_of_getEp h
    have h2 : getEp st
        ({ e with TimeoutDue := d, TimeoutKind := some k } : Endpoint).eid
        = some e := by
      rw [show ({ e with TimeoutDue := d, TimeoutKind := some k } : Endpoint).eid
        = e.eid from rfl, hei]
      exact h
    exact pendOf_setEp_same h2 rfl x

/-!  Claim C4: processPong's timeout re-arm. -/

/-- A dispatcher state with a single idle endpoint that is mid-ping: its
keepalive fired, which armed a pending-timeout and sent a PING.  Network
timeout 15, keepalive timeout 900  (the source's 900-second constant). -/
def pongState : PubState :=
  { cfgTimeout := 15, keepaliveTimeout := 900, now := 1000,
    queue := [], outOfSync := 0, numPayloads := 0, regOps := [],
    eps := [⟨1, false, false, 0, true, 1015, some .timeoutPend⟩],
    readyList := [], nextSpool := none, gateOpen := true,
    shutdownOpen := true, shuttingDown := false, nextPid := 0 }

/-- C4, evaluated at the failing input: after a pong for an endpoint with
`NumPending() == 0`, the source (publisher.go line 310) re-arms the
`timeoutKeepalive` callback at `now + config.Timeout` — the network timeout,
15 — and not at `now + keepalive_timeout` (900) as the claim (and the
source's own comment and log message, and the parallel branch of
`processAck` at line 280) say. -/
theorem processPong_rearms_at_network_timeout :
    (getEp (processPongD pongState 1) 1).map Endpoint.TimeoutKind =
      some (some .timeoutKeep) ∧
    (getEp (processPongD pongState 1) 1).map Endpoint.TimeoutDue =
      some (pongState.now + pongState.cfgTimeout) ∧
    (getEp (processPongD pongState 1) 1).map Endpoint.TimeoutDue ≠
      some (pongState.now + pongState.keepaliveTimeout) := by
  decide

/-!  Claim C9: sendPayload on a rejected (empty) spool. -/

/-- A dispatcher state with a single idle endpoint holding a keepalive
timeout. -/
def idleState : PubState :=
  { cfgTimeout := 15, keepaliveTimeout := 900, now := 100,
    queue := [], outOfSync := 0, numPayloads := 0, regOps := [],
    eps := [⟨1, false, false, 0, false, 1000, some .timeoutKeep⟩],
    readyList := [], nextSpool := none, gateOpen := true,
    shutdownOpen := true, shuttingDown := false, nextPid := 0 }

/-- C9 counterexample: a zero-length spool sent to an endpoint with zero
pending payloads does alter dispatcher state — `sendPayload` registers a
pending-timeout (publisher.go lines 198-201) *before* payload construction
fails, replacing the endpoint's keepalive timeout — refuting the claim that
the endpoint's timeout registration is unchanged.  The queue, payload count
and pending count are unchanged, isolating the discrepancy to the timeout. -/
theorem sendPayload_empty_spool_changes_timeout :
    sendPayloadD idleState 1 0 ≠ idleState ∧
    (getEp (sendPayloadD idleState 1 0) 1).map Endpoint.TimeoutKind =
      some (some .timeoutPend) ∧
    (getEp idleState 1).map Endpoint.TimeoutKind = some (some .timeoutKeep) ∧
    (sendPayloadD idleState 1 0).queue = idleState.queue ∧
    (sendPayloadD idleState 1 0).numPayloads = idleState.numPayloads ∧
    pendOf (sendPayloadD idleState 1 0) 1 = pendOf idleState 1 := by
  decide

/-- C9 amended: when payload construction fails on a zero-length spool, the
spool is dropped and the global in-flight queue, `numPayloads`, the
registrar ops, the ready list, the parked spool, the gate and the endpoint's
pending set are all unchanged, and nothing fatal happens; the endpoint's
timeout registration is also unchanged when the endpoint had pending
payloads, but when it had none a pending-timeout at `now + networkTimeout`
was armed before construction was attempted and remains armed. -/
theorem sendPayload_empty_spool_amended (st : PubState) (eid : Nat)
    (e : Endpoint) (he : getEp st eid = some e) :
    (sendPayloadD st eid 0).queue = st.queue ∧
    (sendPayloadD st eid 0).numPayloads = st.numPayloads ∧
    (sendPayloadD st eid 0).regOps = st.regOps ∧
    (sendPayloadD st eid 0).readyList = st.readyList ∧
    (sendPayloadD st eid 0).nextSpool = st.nextSpool ∧
    (sendPayloadD st eid 0).gateOpen = st.gateOpen ∧
    pendOf (sendPayloadD st eid 0) eid = pendOf st eid ∧
    (e.pendingCount ≠ 0 → sendPayloadD st eid 0 = st) ∧
    (e.pendingCount = 0 →
      sendPayloadD st eid 0 =
        registerTimeoutD st eid (st.now + st.cfgTimeout) TKind.timeoutPend) := by
  have hstep : sendPayloadD st eid 0 =
      (if e.pendingCount == 0 then
        registerTimeoutD st eid (st.now + st.cfgTimeout) TKind.timeoutPend
      else st) := by
    rw [sendPayloadD, he]
    simp
  by_cases hp : e.pendingCount = 0
  · rw [hstep]
    simp only [hp, beq_self_eq_true, if_true]
    refine ⟨registerTimeoutD_queue .., registerTimeoutD_numPayloads ..,
      registerTimeoutD_regOps .., registerTimeoutD_readyList ..,
      registerTimeoutD_nextSpool .., registerTimeoutD_gateOpen ..,
      registerTimeoutD_pendOf .., ?_, ?_⟩
    · simp
    · simp
  · rw [hstep]
    have hb : (e.pendingCount == 0) = false := by simpa using hp
    simp [hb, hp]

/-- Witness for `sendPayload_empty_spool_amended` at `idleState`. -/
theorem sendPayload_empty_spool_amended_witness :
    getEp idleState 1 = some ⟨1, false, false, 0, false, 1000, some .timeoutKeep⟩ ∧
    ((sendPayloadD idleState 1 0).queue = idleState.queue ∧
      (sendPayloadD idleState 1 0).numPayloads = idleState.numPayloads) := by
  have h := sendPayload_empty_spool_amended idleState 1
    ⟨1, false, false, 0, false, 1000, some .timeoutKeep⟩ (by decide)
  exact ⟨by decide, h.1, h.2.1⟩

/-!  Claim C5: shutdown behaviour of the dispatcher loop. -/

/-- C5: a shutdown signal with `numPayloads == 0` breaks the loop at once;
with outstanding payloads it instead sets `shuttingDown`, closes the spool
gate and suppresses further shutdown reads (and a closed gate or suppressed
shutdown channel makes those events no-ops); the loop breaks on no event
other than such a shutdown or an ack processed under `shuttingDown` that
leaves `numPayloads == 0`; and every break is followed by the sink shutdown,
the sink wait, the registrar close and the lifecycle done, in that order. -/
theorem shutdown_drain_behavior (st : PubState) :
    (st.shutdownOpen = true → st.numPayloads = 0 →
      stepD st .evShutdown = (st, true)) ∧
    (st.shutdownOpen = true → st.numPayloads ≠ 0 →
      (stepD st .evShutdown).2 = false ∧
      (stepD st .evShutdown).1.shuttingDown = true ∧
      (stepD st .evShutdown).1.gateOpen = false ∧
      (stepD st .evShutdown).1.shutdownOpen = false) ∧
    (st.shutdownOpen = false → stepD st .evShutdown = (st, false)) ∧
    (st.gateOpen = false → ∀ sz, stepD st (.evSpool sz) = (st, false)) ∧
    (∀ ev, (stepD st ev).2 = true →
      (ev = .evShutdown ∧ st.numPayloads = 0) ∨
      (∃ e pid seq, ev = .evAck e pid seq ∧
        (stepD st ev).1.shuttingDown = true ∧
        (stepD st ev).1.numPayloads = 0)) ∧
    (∀ ev, (stepD st ev).2 = true → finishD (stepD st ev) =
      [ExitAction.sinkShutdown, ExitAction.sinkWait, ExitAction.registrarClose,
        ExitAction.lifecycleDone]) := by
  refine ⟨?_, ?_, ?_, ?_, ?_, ?_⟩
  · intro hso hnp
    simp [stepD, hso, hnp]
  · intro hso hnp
    have hb : (st.numPayloads == 0) = false := by simpa using hnp
    simp [stepD, hso, hb]
  · intro hso
    simp [stepD, hso]
  · intro hg sz
    simp [stepD, hg]
  · intro ev hex
    cases ev with
    | evReady eid => simp [stepD] at hex
    | evSpool sz =>
      by_cases hg : st.gateOpen = true
      · cases hl : st.readyList with
        | nil => simp [stepD, hg, hl] at hex
        | cons h t => simp [stepD, hg, hl] at hex
      · have hg2 : st.gateOpen = false := by simpa using hg
        simp [stepD, hg2] at hex
    | evAck e pid seq =>
      refine Or.inr ⟨e, pid, seq, rfl, ?_, ?_⟩
      · have := (Bool.and_eq_true _ _).mp hex
        exact this.1
      · have := (Bool.and_eq_true _ _).mp hex
        simpa using this.2
    | evPong eid => simp [stepD] at hex
    | evFail eid => simp [stepD] at hex
    | evTimer => simp [stepD] at hex
    | evStats => simp [stepD] at hex
    | evShutdown =>
      by_cases hso : st.shutdownOpen = true
      · by_cases hnp : st.numPayloads = 0
        · exact Or.inl ⟨rfl, hnp⟩
        · have hb : (st.numPayloads == 0) = false := by simpa using hnp
          simp [stepD, hso, hb] at hex
      · have hso2 : st.shutdownOpen = false := by simpa using hso
        simp [stepD, hso2] at hex
  · intro ev hex
    simp [finishD, hex, exitSeq]

/-- Witness for `shutdown_drain_behavior`: at `idleState` (no outstanding
payloads) a shutdown signal exits at once, and the epilogue runs. -/
theorem shutdown_drain_behavior_witness :
    idleState.shutdownOpen = true ∧ idleState.numPayloads = 0 ∧
    stepD idleState .evShutdown = (idleState, true) ∧
    finishD (stepD idleState .evShutdown) =
      [ExitAction.sinkShutdown, ExitAction.sinkWait, ExitAction.registrarClose,
        ExitAction.lifecycleDone] := by
  have h := shutdown_drain_behavior idleState
  refine ⟨by decide, by decide, h.1 (by decide) (by decide), ?_⟩
  exact h.2.2.2.2.2 .evShutdown (by decide)

/-!  More plumbing: registerTimeoutD and sendPayloadD field behaviour. -/

theorem registerTimeoutD_nextPid (st : PubState) (i d : Nat) (k : TKind) :
    (registerTimeoutD st i d k).nextPid = st.nextPid := by
  unfold registerTimeoutD
  cases getEp st i <;> simp

theorem registerTimeoutD_shuttingDown (st : PubState) (i d : Nat) (k : TKind) :
    (registerTimeoutD st i d k).shuttingDown = st.shuttingDown := by
  unfold registerTimeoutD
  cases getEp st i <;> simp

theorem registerTimeoutD_shutdownOpen (st : PubState) (i d : Nat) (k : TKind) :
    (registerTimeoutD st i d k).shutdownOpen = st.shutdownOpen := by
  unfold registerTimeoutD
  cases getEp st i <;> simp

theorem getEp_registerTimeoutD_self {st : PubState} {i : Nat} (d : Nat) (k : TKind)
    {e : Endpoint} (he : getEp st i = some e) :
    getEp (registerTimeoutD st i d k) i =
      some { e with TimeoutDue := d, TimeoutKind := some k } := by
  rw [registerTimeoutD, he]
  exact getEp_setEp_self he rfl

theorem getEp_eps_eq {st st' : PubState} (h : st'.eps = st.eps) (x : Nat) :
    getEp st' x = getEp st x := by
  rw [getEp, getEp, h]

theorem getEp_if_register (st : PubState) (eid d : Nat) (k : TKind) (c : Bool)
    (e : Endpoint) (he : getEp st eid = some e) :
    ∃ e1, getEp (if c then registerTimeoutD st eid d k else st) eid = some e1 ∧
      e1.Ready = e.Ready ∧ e1.Full = e.Full ∧ e1.pendingCount = e.pendingCount ∧
      e1.eid = e.eid := by
  cases c with
  | false => exact ⟨e, by simpa using he, rfl, rfl, rfl, rfl⟩
  | true =>
    refine ⟨{ e with TimeoutDue := d, TimeoutKind := some k }, ?_, rfl, rfl, rfl, rfl⟩
    simpa using getEp_registerTimeoutD_self d k he

theorem if_register_fields (st : PubState) (eid d : Nat) (k : TKind) (c : Bool) :
    (if c then registerTimeoutD st eid d k else st).queue = st.queue ∧
    (if c then registerTimeoutD st eid d k else st).numPayloads = st.numPayloads ∧
    (if c then registerTimeoutD st eid d k else st).nextPid = st.nextPid ∧
    (if c then registerTimeoutD st eid d k else st).readyList = st.readyList ∧
    (if c then registerTimeoutD st eid d k else st).nextSpool = st.nextSpool ∧
    (if c then registerTimeoutD st eid d k else st).gateOpen = st.gateOpen ∧
    (if c then registerTimeoutD st eid d k else st).outOfSync = st.outOfSync ∧
    (if c then registerTimeoutD st eid d k else st).regOps = st.regOps ∧
    (if c then registerTimeoutD st eid d k else st).shuttingDown = st.shuttingDown ∧
    (if c then registerTimeoutD st eid d k else st).shutdownOpen = st.shutdownOpen := by
  cases c with
  | false => simp
  | true =>
    simp only [if_true]
    exact ⟨registerTimeoutD_queue .., registerTimeoutD_numPayloads ..,
      registerTimeoutD_nextPid .., registerTimeoutD_readyList ..,
      registerTimeoutD_nextSpool .., registerTimeoutD_gateOpen ..,
      registerTimeoutD_outOfSync .., registerTimeoutD_regOps ..,
      registerTimeoutD_shuttingDown .., registerTimeoutD_shutdownOpen ..⟩

/-- Effect of `sendPayload` on a non-empty spool: the payload is appended to
the global queue, `numPayloads` is incremented, the endpoint's pending set
grows by one, and the spool-gate and list fields are untouched. -/
theorem sendPayloadD_pos (st : PubState) (eid sz : Nat) (e : Endpoint)
    (he : getEp st eid = some e) (hsz : sz ≠ 0) :
    (sendPayloadD st eid sz).queue = st.queue ++ [⟨st.nextPid, eid, sz, 0, 0⟩] ∧
    (sendPayloadD st eid sz).numPayloads = st.numPayloads + 1 ∧
    (sendPayloadD st eid sz).nextPid = st.nextPid + 1 ∧
    pendOf (sendPayloadD st eid sz) eid = pendOf st eid + 1 ∧
    (getEp (sendPayloadD st eid sz) eid).map Endpoint.Ready = some e.Ready ∧
    (sendPayloadD st eid sz).readyList = st.readyList ∧
    (sendPayloadD st eid sz).nextSpool = st.nextSpool ∧
    (sendPayloadD st eid sz).gateOpen = st.gateOpen ∧
    (sendPayloadD st eid sz).outOfSync = st.outOfSync ∧
    (sendPayloadD st eid sz).regOps = st.regOps ∧
    (sendPayloadD st eid sz).shuttingDown = st.shuttingDown ∧
    (sendPayloadD st eid sz).shutdownOpen = st.shutdownOpen := by
  have hb : (sz == 0) = false := by simpa using hsz
  obtain ⟨e1, h1, hR, hF, hP, hE⟩ := getEp_if_register st eid
    (st.now + st.cfgTimeout) TKind.timeoutPend (e.pendingCount == 0) e he
  obtain ⟨hq, hnp2, hpd2, hrl, hns, hg, hoos, hro, hsd, hsdo⟩ :=
    if_register_fields st eid (st.now + st.cfgTimeout) TKind.timeoutPend
      (e.pendingCount == 0)
  rw [sendPayloadD, he]
  simp only [hb, Bool.false_eq_true, if_false]
  generalize hG : (if (e.pendingCount == 0) = true then
      registerTimeoutD st eid (st.now + st.cfgTimeout) TKind.timeoutPend
    else st) = st1
  rw [hG] at h1 hq hnp2 hpd2 hrl hns hg hoos hro hsd hsdo
  have hg2 : getEp { st1 with
      queue := st1.queue ++ [⟨st1.nextPid, eid, sz, 0, 0⟩],
      numPayloads := st1.numPayloads + 1,
      nextPid := st1.nextPid + 1 } eid = some e1 :=
    (getEp_eps_eq rfl eid).trans h1
  rw [hg2]
  simp only []
  have hpend : pendOf st eid = e.pendingCount := by
    rw [pendOf, he]; rfl
  refine ⟨?_, ?_, ?_, ?_, ?_, ?_, ?_, ?_, ?_, ?_, ?_, ?_⟩
  · simp [hq, hpd2]
  · simp [hnp2]
  · simp [hpd2]
  · rw [pendOf, @getEp_setEp_self _ _ _
      { e1 with pendingCount := e1.pendingCount + 1 } hg2 rfl]
    simp [Endpoint.NumPending, hP, hpend]
  · rw [@getEp_setEp_self _ _ _
      { e1 with pendingCount := e1.pendingCount + 1 } hg2 rfl]
    simp [hR]
  · simp [hrl]
  · simp [hns]
  · simp [hg]
  · simp [hoos]
  · simp [hro]
  · simp [hsd]
  · simp [hsdo]

/-!  Claim C6: the ready list. -/

/-- The walk of `addReady` inserts the endpoint after the maximal prefix of
nodes whose pending count does not exceed the new endpoint's, i.e. before
the first node with strictly more pending; equal-pending nodes are passed,
which places the newer endpoint after the older. -/
theorem insertReady_eq (st : PubState) (eid : Nat) (l : List Nat) :
    insertReady st eid l =
      l.takeWhile (fun x => pendOf st x ≤ pendOf st eid) ++
        eid :: l.dropWhile (fun x => pendOf st x ≤ pendOf st eid) := by
  induction l with
  | nil => rfl
  | cons x rest ih =>
    by_cases h : pendOf st eid < pendOf st x
    · have hx : ¬ (pendOf st x ≤ pendOf st eid) := Nat.not_le.mpr h
      simp [insertReady, h, List.takeWhile_cons, List.dropWhile_cons, hx]
    · have hx : pendOf st x ≤ pendOf st eid := Nat.le_of_not_lt h
      simp [insertReady, h, List.takeWhile_cons, List.dropWhile_cons, hx, ih]

theorem mem_insertReady {st : PubState} {eid y : Nat} {l : List Nat}
    (h : y ∈ insertReady st eid l) : y = eid ∨ y ∈ l := by
  rw [insertReady_eq] at h
  rcases List.mem_append.mp h with h1 | h1
  · exact Or.inr ((List.takeWhile_sublist _).mem h1)
  · rcases List.mem_cons.mp h1 with h2 | h2
    · exact Or.inl h2
    · exact Or.inr ((List.dropWhile_sublist _).mem h2)

theorem insertReady_sorted (st : PubState) (eid : Nat) (l : List Nat)
    (hs : l.Pairwise (fun a b => pendOf st a ≤ pendOf st b)) :
    (insertReady st eid l).Pairwise (fun a b => pendOf st a ≤ pendOf st b) := by
  induction l with
  | nil => simp [insertReady]
  | cons x rest ih =>
    rcases List.pairwise_cons.mp hs with ⟨hx, hrest⟩
    by_cases h : pendOf st eid < pendOf st x
    · rw [insertReady]
      simp only [h, if_true]
      refine List.pairwise_cons.mpr ⟨?_, hs⟩
      intro y hy
      rcases List.mem_cons.mp hy with h2 | h2
      · exact h2 ▸ Nat.le_of_lt h
      · exact Nat.le_trans (Nat.le_of_lt h) (hx y h2)
    · rw [insertReady]
      simp only [h, if_false]
      refine List.pairwise_cons.mpr ⟨?_, ih hrest⟩
      intro y hy
      rcases mem_insertReady hy with h2 | h2
      · exact h2 ▸ Nat.le_of_not_lt h
      · exact hx y h2

theorem insertReady_head (st : PubState) (eid : Nat) (l : List Nat)
    (hn : eid ∉ l) :
    ((insertReady st eid l).head? = some eid ↔
      (∀ x, l.head? = some x → pendOf st eid < pendOf st x)) := by
  cases l with
  | nil => simp [insertReady]
  | cons x rest =>
    have hxe : x ≠ eid := fun hc => hn (hc ▸ List.mem_cons_self x rest)
    by_cases h : pendOf st eid < pendOf st x
    · rw [insertReady]
      simp only [h, if_true]
      simp only [List.head?_cons, Option.some.injEq]
      constructor
      · intro _ y hy
        exact hy ▸ h
      · intro _
        trivial
    · rw [insertReady]
      simp only [h, if_false]
      simp only [List.head?_cons, Option.some.injEq]
      constructor
      · intro hc
        exact absurd hc hxe
      · intro hall
        exact absurd (hall x rfl) h

/-- C6: `addReady` inserts the endpoint into the ready list sorted by
ascending `NumPending()`: the result is the prefix of nodes with pending not
above the new endpoint's, then the endpoint, then the rest; it lands at the
head exactly when the list is empty or the old head has strictly more
pending; sortedness is preserved (ties go after older nodes, by the prefix
characterisation); and a spool arriving with a non-empty ready list goes to
the head: its `Ready` flag is cleared, the spool is sent to it (appending
the payload and raising its pending count), and it is removed from the
ready list. -/
theorem ready_list_discipline (st : PubState) (eid : Nat) :
    (∀ l, insertReady st eid l =
      l.takeWhile (fun x => pendOf st x ≤ pendOf st eid) ++
        eid :: l.dropWhile (fun x => pendOf st x ≤ pendOf st eid)) ∧
    (∀ l, eid ∉ l →
      ((insertReady st eid l).head? = some eid ↔
        (∀ x, l.head? = some x → pendOf st eid < pendOf st x))) ∧
    (∀ l, l.Pairwise (fun a b => pendOf st a ≤ pendOf st b) →
      (insertReady st eid l).Pairwise (fun a b => pendOf st a ≤ pendOf st b)) ∧
    (∀ sz h t e, st.gateOpen = true → st.readyList = h :: t →
      getEp st h = some e → sz ≠ 0 →
      (stepD st (.evSpool sz)).1.readyList = t ∧
      (getEp (stepD st (.evSpool sz)).1 h).map Endpoint.Ready = some false ∧
      (stepD st (.evSpool sz)).1.queue =
        st.queue ++ [⟨st.nextPid, h, sz, 0, 0⟩] ∧
      pendOf (stepD st (.evSpool sz)).1 h = pendOf st h + 1 ∧
      (stepD st (.evSpool sz)).2 = false) := by
  refine ⟨insertReady_eq st eid, fun l => insertReady_head st eid l,
    insertReady_sorted st eid, ?_⟩
  intro sz h t e hgate hrl he hsz
  have hstep : stepD st (.evSpool sz) =
      ({ sendPayloadD (setEp st { e with Ready := false }) h sz
          with readyList := t }, false) := by
    rw [stepD]
    simp only [hgate, if_true, hrl, he]
  set stc := setEp st { e with Ready := false } with hstc
  have hec : getEp stc h = some { e with Ready := false } :=
    getEp_setEp_self he rfl
  obtain ⟨hq, hnp, hpd, hpend, hready, hrl2, hns, hg, hoos, hro, hsd, hsdo⟩ :=
    sendPayloadD_pos stc h sz { e with Ready := false } hec hsz
  rw [hstep]
  refine ⟨rfl, ?_, ?_, ?_, rfl⟩
  · have : getEp ({ sendPayloadD stc h sz with readyList := t }) h =
        getEp (sendPayloadD stc h sz) h := getEp_eps_eq rfl h
    rw [this]
    simpa using hready
  · have : ({ sendPayloadD stc h sz with readyList := t }).queue =
        (sendPayloadD stc h sz).queue := rfl
    rw [this, hq, hstc]
    simp
  · have heq : getEp ({ sendPayloadD stc h sz with readyList := t }) h =
        getEp (sendPayloadD stc h sz) h := getEp_eps_eq rfl h
    have hpp : pendOf ({ sendPayloadD stc h sz with readyList := t }) h =
        pendOf (sendPayloadD stc h sz) h := by
      rw [pendOf, pendOf, heq]
    rw [hpp, hpend, hstc]
    refine congrArg (· + 1) (@pendOf_setEp_same _ e
      { e with Ready := false } ?_ rfl h)
    rw [show ({ e with Ready := false } : Endpoint).eid = e.eid from rfl,
      eid_of_getEp he]
    exact he

/-- A dispatcher state with two ready endpoints of pending counts 1 and 2. -/
def readyState : PubState :=
  { cfgTimeout := 15, keepaliveTimeout := 900, now := 100,
    queue := [], outOfSync := 0, numPayloads := 0, regOps := [],
    eps := [⟨1, true, false, 1, false, 0, none⟩,
            ⟨2, true, false, 2, false, 0, none⟩],
    readyList := [1, 2], nextSpool := none, gateOpen := true,
    shutdownOpen := true, shuttingDown := false, nextPid := 0 }

/-- Witness for `ready_list_discipline`: insertion into a two-element ready
list and dispatch from a concrete state. -/
theorem ready_list_discipline_witness :
    (insertReady readyState 3 [1, 2] =
      ([1, 2].takeWhile (fun x => pendOf readyState x ≤ pendOf readyState 3) ++
        3 :: [1, 2].dropWhile
          (fun x => pendOf readyState x ≤ pendOf readyState 3))) ∧
    ((3 : Nat) ∉ [1, 2] ∧ readyState.gateOpen = true ∧
      readyState.readyList = 1 :: [2] ∧ (5 : Nat) ≠ 0) ∧
    (stepD readyState (.evSpool 5)).1.readyList = [2] ∧
    (stepD readyState (.evSpool 5)).1.queue =
      readyState.queue ++ [⟨readyState.nextPid, 1, 5, 0, 0⟩] := by
  have h := ready_list_discipline readyState 3
  have hd := h.2.2.2 5 1 [2] ⟨1, true, false, 1, false, 0, none⟩
    (by decide) (by decide) (by decide) (by decide)
  exact ⟨h.1 [1, 2], ⟨by decide, by decide, by decide, by decide⟩,
    hd.1, hd.2.2.1⟩

/-!  Claim C8: the parked-spool invariant. -/

/-- Invariant I5: a parked spool implies the gate is closed and the ready
list is empty. -/
def Inv8 (st : PubState) : Prop :=
  st.nextSpool ≠ none → (st.gateOpen = false ∧ st.readyList = [])

theorem inv8_of_fields {st st' : PubState} (h8 : Inv8 st)
    (h1 : st'.nextSpool = st.nextSpool) (h2 : st'.gateOpen = st.gateOpen)
    (h3 : st'.readyList = st.readyList) : Inv8 st' := by
  intro hns
  rw [h1] at hns
  rcases h8 hns with ⟨ha, hb⟩
  exact ⟨h2.trans ha, h3.trans hb⟩

theorem sendPayloadD_gatefields (st : PubState) (eid sz : Nat) :
    (sendPayloadD st eid sz).nextSpool = st.nextSpool ∧
    (sendPayloadD st eid sz).gateOpen = st.gateOpen ∧
    (sendPayloadD st eid sz).readyList = st.readyList := by
  unfold sendPayloadD
  cases hge : getEp st eid with
  | none => exact ⟨rfl, rfl, rfl⟩
  | some e =>
    simp only []
    refine ⟨?_, ?_, ?_⟩ <;>
    · repeat' split
      all_goals
        simp [registerTimeoutD_nextSpool, registerTimeoutD_gateOpen,
          registerTimeoutD_readyList]

theorem addReadyD_nextSpool (st : PubState) (eid : Nat) :
    (addReadyD st eid).nextSpool = st.nextSpool := by
  unfold addReadyD
  cases getEp st eid <;> simp

theorem addReadyD_gateOpen (st : PubState) (eid : Nat) :
    (addReadyD st eid).gateOpen = st.gateOpen := by
  unfold addReadyD
  cases getEp st eid <;> simp

theorem registerReadyD_inv8 (st : PubState) (eid : Nat) (h8 : Inv8 st) :
    Inv8 (registerReadyD st eid) := by
  unfold registerReadyD
  cases hge : getEp st eid with
  | none => exact h8
  | some e =>
    simp only []
    by_cases hr : e.Ready = true
    · simp only [hr, if_true]
      exact h8
    · have hr2 : e.Ready = false := by simpa using hr
      simp only [hr2, Bool.false_eq_true, if_false]
      by_cases hp4 : 4 ≤ e.pendingCount
      · simp only [hp4, if_true]
        by_cases hf : e.Full = true
        · simp only [hf, if_true]
          exact h8
        · have hf2 : e.Full = false := by simpa using hf
          simp only [hf2, Bool.false_eq_true, if_false]
          exact inv8_of_fields h8 rfl rfl rfl
      · simp only [hp4, if_false]
        cases hns : st.nextSpool with
        | some sz =>
          intro hcon
          exact absurd rfl hcon
        | none =>
          simp only []
          have hns1 : (addReadyD st eid).nextSpool = none := by
            rw [addReadyD_nextSpool, hns]
          split
          · intro hcon
            rw [registerTimeoutD_nextSpool, hns1] at hcon
            exact absurd rfl hcon
          · intro hcon
            rw [hns1] at hcon
            exact absurd rfl hcon

theorem ackRearm_inv8 (st : PubState) (eid : Nat) (h8 : Inv8 st) :
    Inv8 (ackRearm st eid) := by
  unfold ackRearm
  split <;>
    exact inv8_of_fields h8 (registerTimeoutD_nextSpool ..)
      (registerTimeoutD_gateOpen ..) (registerTimeoutD_readyList ..)

theorem ackUnfull_inv8 (st : PubState) (eid : Nat) (h8 : Inv8 st) :
    Inv8 (ackUnfull st eid) := by
  unfold ackUnfull
  split
  · split
    · exact registerReadyD_inv8 _ _ h8
    · exact h8
  · exact h8

set_option maxHeartbeats 1600000 in
theorem processAckD_inv8 (st : PubState) (eid pid seq : Nat) (h8 : Inv8 st) :
    Inv8 (processAckD st eid pid seq) := by
  unfold processAckD
  cases hge : getEp st eid with
  | none => exact h8
  | some e =>
    cases hfp : findPayload st eid pid with
    | none => exact h8
    | some p =>
      simp only []
      repeat' split
      all_goals
        first
        | exact h8
        | (apply ackUnfull_inv8
           apply ackRearm_inv8
           refine inv8_of_fields h8 ?_ ?_ ?_ <;> simp)

/-- C8: the invariant `nextSpool != nil ⟹ spool gate closed ∧ ready list
empty` is preserved by every dispatcher event; a spool arriving with the
gate open and no ready endpoint is parked and closes the gate; and when an
endpoint is offered through `registerReady` while a spool is parked (and the
endpoint is usable: not already Ready, below the full threshold), the parked
spool is dispatched to it at once, `nextSpool` is cleared and the gate
reopens. -/
theorem parked_spool_invariant (st : PubState) :
    (∀ ev : PubEvent, Inv8 st → Inv8 (stepD st ev).1) ∧
    (∀ sz, st.gateOpen = true → st.readyList = [] →
      (stepD st (.evSpool sz)).1.nextSpool = some sz ∧
      (stepD st (.evSpool sz)).1.gateOpen = false) ∧
    (∀ sz eid e, st.nextSpool = some sz → getEp st eid = some e →
      e.Ready = false → e.pendingCount < 4 →
      (registerReadyD st eid).nextSpool = none ∧
      (registerReadyD st eid).gateOpen = true ∧
      (sz ≠ 0 → (registerReadyD st eid).queue =
        st.queue ++ [⟨st.nextPid, eid, sz, 0, 0⟩])) := by
  refine ⟨?_, ?_, ?_⟩
  · intro ev h8
    cases ev with
    | evReady eid => exact registerReadyD_inv8 st eid h8
    | evSpool sz =>
      by_cases hg : st.gateOpen = true
      · cases hl : st.readyList with
        | nil =>
          simp only [stepD, hg, if_true, hl]
          intro _
          exact ⟨rfl, rfl⟩
        | cons h t =>
          have hns : st.nextSpool = none := by
            by_cases hx : st.nextSpool = none
            · exact hx
            · rcases h8 hx with ⟨hga, _⟩
              rw [hg] at hga
              exact absurd hga (by simp)
          intro hcon
          exfalso
          apply hcon
          cases hgem : getEp st h with
          | none =>
            simp only [stepD, hg, if_true, hl, hgem]
            show (sendPayloadD st h sz).nextSpool = none
            rw [(sendPayloadD_gatefields st h sz).1, hns]
          | some e =>
            simp only [stepD, hg, if_true, hl, hgem]
            show (sendPayloadD (setEp st { e with Ready := false }) h
              sz).nextSpool = none
            rw [(sendPayloadD_gatefields (setEp st { e with Ready := false })
              h sz).1, setEp_nextSpool, hns]
      · have hg2 : st.gateOpen = false := by simpa using hg
        simp only [stepD, hg2, Bool.false_eq_true, if_false]
        exact h8
    | evAck eid pid seq => exact processAckD_inv8 st eid pid seq h8
    | evPong eid =>
      show Inv8 (processPongD st eid)
      unfold processPongD
      cases getEp st eid with
      | none => exact h8
      | some e =>
        simp only []
        split
        · exact h8
        · split
          · refine inv8_of_fields h8 ?_ ?_ ?_ <;>
              simp [registerTimeoutD_nextSpool, registerTimeoutD_gateOpen,
                registerTimeoutD_readyList]
          · exact inv8_of_fields h8 rfl rfl rfl
    | evFail eid => exact h8
    | evTimer => exact h8
    | evStats => exact h8
    | evShutdown =>
      by_cases hso : st.shutdownOpen = true
      · by_cases hnp : st.numPayloads = 0
        · simp only [stepD, hso, if_true, hnp, beq_self_eq_true]
          simpa using h8
        · have hb : (st.numPayloads == 0) = false := by simpa using hnp
          simp only [stepD, hso, if_true, hb, Bool.false_eq_true, if_false]
          intro hns
          exact ⟨rfl, (h8 hns).2⟩
      · have hso2 : st.shutdownOpen = false := by simpa using hso
        simp only [stepD, hso2, Bool.false_eq_true, if_false]
        exact h8
  · intro sz hg hl
    simp [stepD, hg, hl]
  · intro sz eid e hns hge hr hp4
    have hnle : ¬ 4 ≤ e.pendingCount := Nat.not_le.mpr hp4
    have hkey : registerReadyD st eid =
        { sendPayloadD st eid sz with nextSpool := none, gateOpen := true } := by
      rw [registerReadyD, hge]
      simp only [hr, Bool.false_eq_true, if_false, hnle, hns]
    rw [hkey]
    refine ⟨rfl, rfl, ?_⟩
    intro hsz
    exact (sendPayloadD_pos st eid sz e hge hsz).1

/-- A dispatcher state with a parked spool of five events, a closed gate and
one idle endpoint about to become ready. -/
def parkedState : PubState :=
  { cfgTimeout := 15, keepaliveTimeout := 900, now := 100,
    queue := [], outOfSync := 0, numPayloads := 0, regOps := [],
    eps := [⟨1, false, false, 0, false, 0, none⟩],
    readyList := [], nextSpool := some 5, gateOpen := false,
    shutdownOpen := true, shuttingDown := false, nextPid := 0 }

/-- Witness for `parked_spool_invariant`: a concrete parked-spool state in
which a newly ready endpoint receives the spool at once. -/
theorem parked_spool_invariant_witness :
    Inv8 parkedState ∧
    (parkedState.nextSpool = some 5 ∧
      getEp parkedState 1 = some ⟨1, false, false, 0, false, 0, none⟩) ∧
    Inv8 (stepD parkedState (.evReady 1)).1 ∧
    (registerReadyD parkedState 1).nextSpool = none ∧
    (registerReadyD parkedState 1).gateOpen = true ∧
    (registerReadyD parkedState 1).queue =
      parkedState.queue ++ [⟨parkedState.nextPid, 1, 5, 0, 0⟩] := by
  have h := parked_spool_invariant parkedState
  have h8 : Inv8 parkedState := by
    intro _
    exact ⟨by decide, by decide⟩
  have hd := h.2.2 5 1 ⟨1, false, false, 0, false, 0, none⟩
    (by decide) (by decide) (by decide) (by decide)
  exact ⟨h8, ⟨by decide, by decide⟩, h.1 (.evReady 1) h8, hd.1, hd.2.1,
    hd.2.2 (by decide)⟩

/-!  Claim C10: the timer is armed only while the timeout list is non-empty. -/

theorem insertEntry_mem (e : TEntry) (l : List TEntry) :
    e ∈ (insertEntry e l).1 := by
  induction l with
  | nil => simp [insertEntry]
  | cons x rest ih =>
    by_cases h : e.due < x.due
    · simp [insertEntry, h]
    · simp only [insertEntry, h, if_false]
      exact List.mem_cons_of_mem x ih

theorem registerTimeoutW_mem (st : TState) (eid due : Nat) (k : TKind) :
    (⟨eid, due, k⟩ : TEntry) ∈ ((registerTimeoutW st eid due k).1).entries := by
  unfold registerTimeoutW
  exact insertEntry_mem _ _

theorem registerTimeoutW_entries_ne (st : TState) (eid due : Nat) (k : TKind) :
    ((registerTimeoutW st eid due k).1).entries ≠ [] := by
  intro h
  have := registerTimeoutW_mem st eid due k
  rw [h] at this
  exact absurd this (List.not_mem_nil _)

/-- The mid-drain invariant: while the timer is armed, some registered entry
is still due in the future. -/
def TInv (nowT : Nat) (st : TState) : Prop :=
  st.armed = true → ∃ e ∈ st.entries, nowT < e.due

theorem runTCallback_tinv {cfgT nowT : Nat} (hc : 0 < cfgT) (st : TState)
    (e : TEntry) (h : TInv nowT st) :
    TInv nowT (runTCallback cfgT nowT st e) := by
  cases ek : e.kind with
  | timeoutPend => simpa [runTCallback, ek] using h
  | timeoutKeep =>
    simp only [runTCallback, ek]
    intro _
    exact ⟨⟨e.eid, nowT + cfgT, .timeoutPend⟩, registerTimeoutW_mem ..,
      by simp; omega⟩

theorem fireLoop_tinv {cfgT nowT : Nat} (hc : 0 < cfgT) :
    ∀ (fuel : Nat) (st : TState), TInv nowT st →
      (st.armed = true → ∀ e, st.entries.head? = some e → ¬ nowT < e.due) →
      TInv nowT (fireLoop cfgT nowT fuel st).1 := by
  intro fuel
  induction fuel with
  | zero => intro st h _; exact h
  | succ f ih =>
    intro st h hside
    rw [fireLoop]
    cases hent : st.entries with
    | nil => exact h
    | cons e rest =>
      simp only []
      have h' : TInv nowT (⟨rest, st.armed⟩ : TState) := by
        intro ha
        rcases h ha with ⟨w, hw, hwd⟩
        rw [hent] at hw
        rcases List.mem_cons.mp hw with hw1 | hw1
        · exfalso
          exact (hside ha e (by rw [hent]; rfl)) (hw1 ▸ hwd)
        · exact ⟨w, hw1, hwd⟩
      have h1 : TInv nowT (runTCallback cfgT nowT ⟨rest, st.armed⟩ e) :=
        runTCallback_tinv hc _ e h'
      cases hent1 : (runTCallback cfgT nowT ⟨rest, st.armed⟩ e).entries with
      | nil =>
        simp only [hent1]
        exact h1
      | cons e2 rest2 =>
        simp only [hent1]
        by_cases hdue : nowT < e2.due
        · simp [hdue]
          exact h1
        · simp [hdue]
          refine ih _ h1 ?_
          intro ha e' he'
          rw [hent1] at he'
          rw [List.head?_cons, Option.some.injEq] at he'
          exact he' ▸ hdue

/-- C10: the underlying timer is armed only while the timeout list has a
head.  `NewPublisher` starts with the timer stopped and no entries;
`registerTimeout` always leaves the list non-empty (so any reset it performs
arms the timer over a non-empty list); and, provided the network timeout is
positive, a timer fire — which pops heads and may re-register endpoints from
inside keepalive callbacks — leaves the timer armed only if the list is
non-empty.  Hence the drain's unconditional dereference of `timeoutHead` is
safe. -/
theorem timer_armed_nonempty (cfgT nowT : Nat) (hc : 0 < cfgT) :
    (initialTState.armed = false ∧ initialTState.entries = []) ∧
    (∀ st eid due k, ((registerTimeoutW st eid due k).1).entries ≠ []) ∧
    (∀ st : TState, (fireTimer cfgT nowT st).1.armed = true →
      (fireTimer cfgT nowT st).1.entries ≠ []) := by
  refine ⟨⟨rfl, rfl⟩, registerTimeoutW_entries_ne, ?_⟩
  intro st
  unfold fireTimer
  have h0 : TInv nowT (⟨st.entries, false⟩ : TState) := by
    intro hcon
    exact absurd hcon (by simp)
  have h := fireLoop_tinv hc (2 * st.entries.length + 2) ⟨st.entries, false⟩ h0
    (by intro hcon; exact absurd hcon (by simp))
  cases hent : (fireLoop cfgT nowT (2 * st.entries.length + 2)
      ⟨st.entries, false⟩).1.entries with
  | nil =>
    simp only [hent]
    intro ha
    rcases h ha with ⟨w, hw, _⟩
    rw [hent] at hw
    exact absurd hw (List.not_mem_nil _)
  | cons x xs =>
    simp only [hent]
    intro _
    exact List.cons_ne_nil x xs

/-- Witness for `timer_armed_nonempty` at a network timeout of 15 and a
concrete one-entry wheel. -/
theorem timer_armed_nonempty_witness :
    (0 : Nat) < 15 ∧
    (((registerTimeoutW ⟨[], false⟩ 1 115 TKind.timeoutPend).1).entries ≠ [] ∧
      ((fireTimer 15 100 ⟨[⟨1, 90, TKind.timeoutKeep⟩], true⟩).1.armed = true →
        (fireTimer 15 100 ⟨[⟨1, 90, TKind.timeoutKeep⟩], true⟩).1.entries ≠ [])) := by
  have h := timer_armed_nonempty 15 100 (by decide)
  exact ⟨by decide, h.2.1 ⟨[], false⟩ 1 115 TKind.timeoutPend,
    h.2.2 ⟨[⟨1, 90, TKind.timeoutKeep⟩], true⟩⟩

/-!  Claim C7: the timeout wheel's registration and drain. -/

/-- The identifying data of the timer's target: the head entry's endpoint
and due-time. -/
def headKey (l : List TEntry) : Option (Nat × Nat) :=
  l.head?.map (fun x => (x.eid, x.due))

theorem removeEntry_cons (eid : Nat) (x : TEntry) (rest : List TEntry) :
    removeEntry eid (x :: rest) =
      (if (x.eid == eid) = true then (rest, true)
       else (x :: (removeEntry eid rest).1, false)) := rfl

theorem insertEntry_cons (e x : TEntry) (rest : List TEntry) :
    insertEntry e (x :: rest) =
      (if e.due < x.due then (e :: x :: rest, true)
       else (x :: (insertEntry e rest).1, false)) := rfl

theorem removeEntry_not_mem {eid : Nat} {l : List TEntry}
    (h : eid ∉ l.map TEntry.eid) : removeEntry eid l = (l, false) := by
  induction l with
  | nil => rfl
  | cons x rest ih =>
    rw [List.map_cons, List.mem_cons] at h
    push_neg at h
    have hx : (x.eid == eid) = false :=
      beq_eq_false_iff_ne.mpr (fun hc => h.1 hc.symm)
    rw [removeEntry_cons, hx]
    simp only [Bool.false_eq_true, if_false, ih h.2]

theorem removeEntry_filter {eid : Nat} {l : List TEntry}
    (h : (l.map TEntry.eid).Nodup) :
    (removeEntry eid l).1 = l.filter (fun x => x.eid != eid) := by
  induction l with
  | nil => rfl
  | cons x rest ih =>
    rw [List.map_cons, List.nodup_cons] at h
    by_cases hx : (x.eid == eid) = true
    · have hxe : x.eid = eid := by simpa using hx
      have hnm : eid ∉ rest.map TEntry.eid := hxe ▸ h.1
      have hall : rest.filter (fun y => y.eid != eid) = rest := by
        refine List.filter_eq_self.mpr ?_
        intro a ha
        have ham : a.eid ∈ rest.map TEntry.eid := List.mem_map_of_mem _ ha
        simp only [bne_iff_ne, ne_eq, decide_eq_true_eq]
        intro hc
        exact hnm (hc ▸ ham)
      rw [removeEntry_cons, hx]
      simp [List.filter_cons, hxe, hall]
    · have hx2 : (x.eid == eid) = false := by simpa using hx
      have hxe : x.eid ≠ eid := by simpa using hx
      rw [removeEntry_cons, hx2]
      simp [List.filter_cons, hxe, ih h.2]

theorem insertEntry_eq (e : TEntry) (l : List TEntry) :
    (insertEntry e l).1 =
      l.takeWhile (fun x => decide (x.due ≤ e.due)) ++
        e :: l.dropWhile (fun x => decide (x.due ≤ e.due)) := by
  induction l with
  | nil => rfl
  | cons x rest ih =>
    by_cases h : e.due < x.due
    · have hx : ¬ x.due ≤ e.due := Nat.not_le.mpr h
      rw [insertEntry_cons, if_pos h]
      simp [List.takeWhile_cons, List.dropWhile_cons, hx]
    · have hx : x.due ≤ e.due := Nat.le_of_not_lt h
      rw [insertEntry_cons, if_neg h]
      simp [List.takeWhile_cons, List.dropWhile_cons, hx, ih]

theorem mem_insertEntry {e y : TEntry} {l : List TEntry}
    (h : y ∈ (insertEntry e l).1) : y = e ∨ y ∈ l := by
  rw [insertEntry_eq] at h
  rcases List.mem_append.mp h with h1 | h1
  · exact Or.inr ((List.takeWhile_sublist _).mem h1)
  · rcases List.mem_cons.mp h1 with h2 | h2
    · exact Or.inl h2
    · exact Or.inr ((List.dropWhile_sublist _).mem h2)

theorem insertEntry_sorted (e : TEntry) (l : List TEntry)
    (hs : l.Pairwise (fun a b => a.due ≤ b.due)) :
    ((insertEntry e l).1).Pairwise (fun a b => a.due ≤ b.due) := by
  induction l with
  | nil => simp [insertEntry]
  | cons x rest ih =>
    rcases List.pairwise_cons.mp hs with ⟨hx, hrest⟩
    by_cases h : e.due < x.due
    · rw [insertEntry_cons, if_pos h]
      refine List.pairwise_cons.mpr ⟨?_, hs⟩
      intro y hy
      rcases List.mem_cons.mp hy with h2 | h2
      · exact h2 ▸ Nat.le_of_lt h
      · exact Nat.le_trans (Nat.le_of_lt h) (hx y h2)
    · rw [insertEntry_cons, if_neg h]
      refine List.pairwise_cons.mpr ⟨?_, ih hrest⟩
      intro y hy
      rcases mem_insertEntry hy with h2 | h2
      · exact h2 ▸ Nat.le_of_not_lt h
      · exact hx y h2

theorem insertEntry_perm (e : TEntry) (l : List TEntry) :
    ((insertEntry e l).1).Perm (e :: l) := by
  rw [insertEntry_eq]
  have h1 := @List.perm_middle _ e
    (l.takeWhile (fun x => decide (x.due ≤ e.due)))
    (l.dropWhile (fun x => decide (x.due ≤ e.due)))
  rwa [List.takeWhile_append_dropWhile] at h1

theorem registerTimeoutW_reset_iff (st : TState) (eid due : Nat) (k : TKind)
    (hnd : (st.entries.map TEntry.eid).Nodup)
    (hfresh : ∀ x ∈ st.entries, x.eid = eid → x.due ≠ due) :
    ((registerTimeoutW st eid due k).2 = true ↔
      headKey ((registerTimeoutW st eid due k).1).entries ≠
        headKey st.entries) := by
  unfold registerTimeoutW
  simp only []
  cases hl : st.entries with
  | nil =>
    simp [removeEntry, insertEntry, headKey]
  | cons x rest =>
    have hnd2 : x.eid ∉ rest.map TEntry.eid ∧ (rest.map TEntry.eid).Nodup := by
      rw [hl, List.map_cons, List.nodup_cons] at hnd
      exact hnd
    by_cases hx : (x.eid == eid) = true
    · have hxe : x.eid = eid := by simpa using hx
      have hxd : x.due ≠ due := hfresh x (hl ▸ List.mem_cons_self x rest) hxe
      rw [removeEntry_cons, if_pos hx]
      simp only [Bool.or_true, true_iff]
      have hne : headKey ((insertEntry ⟨eid, due, k⟩ rest).1) ≠
          headKey (x :: rest) := by
        cases hr : rest with
        | nil =>
          simp only [insertEntry, headKey, List.head?_cons, Option.map_some]
          simp [hxe]
          intro hc
          exact absurd hc.symm hxd
        | cons y rest2 =>
          have hy : y.eid ≠ eid := by
            intro hc
            apply hnd2.1
            rw [hxe, ← hc]
            exact List.mem_map_of_mem _ (hr ▸ List.mem_cons_self y rest2)
          by_cases hd : (⟨eid, due, k⟩ : TEntry).due < y.due
          · rw [insertEntry_cons, if_pos hd]
            simp only [headKey, List.head?_cons, Option.map_some]
            simp [hxe]
            intro hc
            exact absurd hc.symm hxd
          · rw [insertEntry_cons, if_neg hd]
            simp only [headKey, List.head?_cons, Option.map_some]
            simp [hxe]
            intro hc
            exact absurd hc hy
      exact hne
    · have hxe : x.eid ≠ eid := by simpa using hx
      rw [removeEntry_cons, if_neg (by simpa using hxe)]
      simp only [Bool.or_false]
      by_cases hd : (⟨eid, due, k⟩ : TEntry).due < x.due
      · rw [insertEntry_cons, if_pos hd]
        refine iff_of_true rfl ?_
        simp only [headKey, List.head?_cons, Option.map_some]
        simp
        intro hc
        exact absurd hc.symm hxe
      · rw [insertEntry_cons, if_neg hd]
        refine iff_of_false (by simp) ?_
        simp [headKey]

theorem insertEntry_append_ge (e : TEntry) (l1 l2 : List TEntry)
    (h : ∀ x ∈ l1, x.due < e.due) :
    (insertEntry e (l1 ++ l2)).1 = l1 ++ (insertEntry e l2).1 := by
  induction l1 with
  | nil => rfl
  | cons x rest ih =>
    have hx : ¬ e.due < x.due := by
      have := h x (List.mem_cons_self x rest)
      omega
    rw [List.cons_append, insertEntry_cons, if_neg hx]
    simp only [List.cons_append, List.cons.injEq, true_and]
    exact ih (fun y hy => h y (List.mem_cons_of_mem x hy))

theorem registerW_keep_entries {p : TEntry} {R : List TEntry}
    (hpn : p.eid ∉ R.map TEntry.eid) (armed : Bool) (d : Nat) :
    ((registerTimeoutW ⟨R, armed⟩ p.eid d .timeoutPend).1).entries =
      (insertEntry ⟨p.eid, d, .timeoutPend⟩ R).1 := by
  unfold registerTimeoutW
  simp only [removeEntry_not_mem hpn]

theorem contains_eq_false_of_not_mem {a : Nat} {l : List Nat} (h : a ∉ l) :
    l.contains a = false := by
  simpa using h

theorem fireLoop_trace {cfgT nowT : Nat} (hc : 0 < cfgT) :
    ∀ (P : List TEntry) (fuel : Nat) (st : TState) (p : TEntry)
      (Q : List TEntry),
      st.entries = p :: (P ++ Q) → p.due ≤ nowT →
      (∀ x ∈ P, x.due ≤ nowT) → (∀ x ∈ Q, nowT < x.due) →
      ((p :: (P ++ Q)).map TEntry.eid).Nodup →
      (p :: (P ++ Q)).Pairwise (fun a b => a.due ≤ b.due) →
      P.length + 1 ≤ fuel →
      ((fireLoop cfgT nowT fuel st).2.map Prod.fst = p :: P ∧
        ∀ pr ∈ (fireLoop cfgT nowT fuel st).2, pr.2 = false) := by
  intro P
  induction P with
  | nil =>
    intro fuel st p Q hent hp hP hQ hnd hs hfuel
    simp only [List.nil_append] at hent hnd hs
    cases fuel with
    | zero => omega
    | succ f =>
      have hpn : p.eid ∉ Q.map TEntry.eid := by
        rw [List.map_cons, List.nodup_cons] at hnd
        exact hnd.1
      have hpn' : ∀ x ∈ Q, x.eid ≠ p.eid :=
        fun x hx hc => hpn (hc ▸ List.mem_map_of_mem _ hx)
      have hflag : ((Q.map TEntry.eid).contains p.eid) = false :=
        contains_eq_false_of_not_mem hpn
      rw [fireLoop, hent]
      simp only []
      cases pk : p.kind with
      | timeoutPend =>
        simp only [runTCallback, pk]
        cases hq : Q with
        | nil => simp
        | cons q Qr =>
          have hqd : nowT < q.due := hQ q (by rw [hq]; exact List.mem_cons_self q Qr)
          simp [hqd]
          exact ⟨fun hcm => hpn' q (by rw [hq]; exact List.mem_cons_self q Qr) hcm.symm,
            fun x hx => hpn' x (by rw [hq]; exact List.mem_cons_of_mem q hx)⟩
      | timeoutKeep =>
        simp only [runTCallback, pk]
        have hreg := registerW_keep_entries hpn st.armed (nowT + cfgT)
        rw [hreg]
        cases hins : (insertEntry ⟨p.eid, nowT + cfgT, .timeoutPend⟩ Q).1 with
        | nil =>
          simp
          exact fun x hx => hpn' x hx
        | cons q2 R2 =>
          have hq2 : nowT < q2.due := by
            have hm : q2 ∈ (insertEntry ⟨p.eid, nowT + cfgT, .timeoutPend⟩ Q).1 :=
              hins ▸ List.mem_cons_self q2 R2
            rcases mem_insertEntry hm with h2 | h2
            · rw [h2]
              simp
              omega
            · exact hQ q2 h2
          simp [hq2]
          exact fun x hx => hpn' x hx
  | cons p' P' ih =>
    intro fuel st p Q hent hp hP hQ hnd hs hfuel
    cases fuel with
    | zero => simp at hfuel
    | succ f =>
      have hpn : p.eid ∉ ((p' :: P') ++ Q).map TEntry.eid := by
        rw [List.map_cons, List.nodup_cons] at hnd
        exact hnd.1
      have hflag : ((((p' :: P') ++ Q).map TEntry.eid).contains p.eid) = false :=
        contains_eq_false_of_not_mem hpn
      have hp' : p'.due ≤ nowT := hP p' (List.mem_cons_self p' P')
      have hnlt : ¬ nowT < p'.due := Nat.not_lt.mpr hp'
      have hd : (decide (nowT < p'.due)) = false := by simp [hnlt]
      have hrest_nd : (((p' :: P') ++ Q).map TEntry.eid).Nodup := by
        rw [List.map_cons, List.nodup_cons] at hnd
        exact hnd.2
      have hrest_s : ((p' :: P') ++ Q).Pairwise (fun a b => a.due ≤ b.due) :=
        (List.pairwise_cons.mp hs).2
      have hfuel' : P'.length + 1 ≤ f := by
        simp at hfuel
        omega
      rw [fireLoop, hent]
      simp only []
      cases pk : p.kind with
      | timeoutPend =>
        simp only [runTCallback, pk]
        have hih := ih f (⟨p' :: (P' ++ Q), st.armed⟩ : TState) p' Q rfl hp'
          (fun x hx => hP x (List.mem_cons_of_mem p' hx)) hQ
          (by simpa using hrest_nd) (by simpa using hrest_s) hfuel'
        simp only [List.cons_append, hd, Bool.not_false, if_true]
        constructor
        · simp [hih.1]
        · intro pr hpr
          rcases List.mem_cons.mp hpr with h | h
          · rw [h]
            exact hflag
          · exact hih.2 pr h
      | timeoutKeep =>
        simp only [runTCallback, pk]
        have hreg := registerW_keep_entries hpn st.armed (nowT + cfgT)
        have happ : (insertEntry ⟨p.eid, nowT + cfgT, .timeoutPend⟩
            ((p' :: P') ++ Q)).1 =
            (p' :: P') ++ (insertEntry ⟨p.eid, nowT + cfgT, .timeoutPend⟩ Q).1 := by
          refine insertEntry_append_ge _ _ _ ?_
          intro x hx
          have := hP x hx
          simp
          omega
        have hQ2 : ∀ x ∈ (insertEntry ⟨p.eid, nowT + cfgT, .timeoutPend⟩ Q).1,
            nowT < x.due := by
          intro x hx
          rcases mem_insertEntry hx with h2 | h2
          · rw [h2]
            simp
            omega
          · exact hQ x h2
        have hnd2 : ((p' :: (P' ++ (insertEntry
            ⟨p.eid, nowT + cfgT, .timeoutPend⟩ Q).1)).map TEntry.eid).Nodup := by
          have hperm : ((insertEntry ⟨p.eid, nowT + cfgT, .timeoutPend⟩
              ((p' :: P') ++ Q)).1).Perm
              (⟨p.eid, nowT + cfgT, .timeoutPend⟩ :: ((p' :: P') ++ Q)) :=
            insertEntry_perm _ _
          have hpm := hperm.map TEntry.eid
          have hx : (((insertEntry ⟨p.eid, nowT + cfgT, .timeoutPend⟩
              ((p' :: P') ++ Q)).1).map TEntry.eid).Nodup := by
            rw [hpm.nodup_iff]
            simpa using hnd
          rw [happ] at hx
          simpa using hx
        have hs2 : (p' :: (P' ++ (insertEntry
            ⟨p.eid, nowT + cfgT, .timeoutPend⟩ Q).1)).Pairwise
            (fun a b => a.due ≤ b.due) := by
          have hx := insertEntry_sorted ⟨p.eid, nowT + cfgT, .timeoutPend⟩
            ((p' :: P') ++ Q) hrest_s
          rw [happ] at hx
          simpa using hx
        have hent1 : ((registerTimeoutW ⟨(p' :: P') ++ Q, st.armed⟩ p.eid
            (nowT + cfgT) .timeoutPend).1).entries =
            p' :: (P' ++ (insertEntry ⟨p.eid, nowT + cfgT, .timeoutPend⟩ Q).1) := by
          rw [hreg, happ]
          simp
        have hih := ih f ((registerTimeoutW ⟨(p' :: P') ++ Q, st.armed⟩ p.eid
            (nowT + cfgT) .timeoutPend).1) p'
          ((insertEntry ⟨p.eid, nowT + cfgT, .timeoutPend⟩ Q).1)
          hent1 hp' (fun x hx => hP x (List.mem_cons_of_mem p' hx)) hQ2 hnd2
          hs2 hfuel'
        rw [hent1]
        simp only [hd, Bool.not_false, if_true]
        constructor
        · simp only [List.map_cons, List.cons.injEq]
          exact ⟨trivial, hih.1⟩
        · intro pr hpr
          rcases List.mem_cons.mp hpr with h | h
          · rw [h]
            exact hflag
          · exact hih.2 pr h

theorem dropWhile_future {nowT : Nat} :
    ∀ l : List TEntry, l.Pairwise (fun a b => a.due ≤ b.due) →
      ∀ x ∈ l.dropWhile (fun y => decide (y.due ≤ nowT)), nowT < x.due := by
  intro l
  induction l with
  | nil => simp
  | cons a rest ih =>
    intro hs x hx
    rw [List.dropWhile_cons] at hx
    by_cases ha : a.due ≤ nowT
    · simp [ha] at hx
      exact ih (List.pairwise_cons.mp hs).2 x hx
    · simp [ha] at hx
      rcases hx with h1 | h1
      · rw [h1]
        omega
      · have := (List.pairwise_cons.mp hs).1 x h1
        omega

theorem fireTimer_snd (cfgT nowT : Nat) (st : TState) :
    (fireTimer cfgT nowT st).2 =
      (fireLoop cfgT nowT (2 * st.entries.length + 2)
        (⟨st.entries, false⟩ : TState)).2 := by
  unfold fireTimer
  simp only []
  split <;> rfl

theorem fireTimer_armed_iff {cfgT nowT : Nat} (hc : 0 < cfgT) (st : TState) :
    ((fireTimer cfgT nowT st).1.armed = true ↔
      (fireTimer cfgT nowT st).1.entries ≠ []) := by
  have h0 : TInv nowT (⟨st.entries, false⟩ : TState) := by
    intro hcon
    exact absurd hcon (by simp)
  have hinv := fireLoop_tinv hc (2 * st.entries.length + 2) ⟨st.entries, false⟩
    h0 (by intro hcon; exact absurd hcon (by simp))
  unfold fireTimer
  cases hent : (fireLoop cfgT nowT (2 * st.entries.length + 2)
      (⟨st.entries, false⟩ : TState)).1.entries with
  | nil =>
    simp only [hent]
    constructor
    · intro ha
      rcases hinv ha with ⟨w, hw, _⟩
      rw [hent] at hw
      exact absurd hw (List.not_mem_nil _)
    · intro hne
      exact absurd rfl hne
  | cons x xs =>
    simp only [hent]
    exact iff_of_true trivial (List.cons_ne_nil x xs)

/-- C7: `registerTimeout` unlinks any existing node of the endpoint, splices
the new node before the first strictly later due-time (after equal ones),
preserves due-order, and resets the underlying timer exactly when the head
of the list — endpoint and due-time — changed; on a timer fire the head
entries whose due-time is not in the future are processed in list order,
each entry leaving the list (its `TimeoutFunc` nilled) before its callback
runs, and afterwards the timer is armed exactly when a head remains. -/
theorem timeout_wheel_discipline (st : TState) (eid due : Nat) (k : TKind)
    (cfgT nowT : Nat)
    (hnd : (st.entries.map TEntry.eid).Nodup)
    (hs : st.entries.Pairwise (fun a b => a.due ≤ b.due))
    (hfresh : ∀ x ∈ st.entries, x.eid = eid → x.due ≠ due)
    (hc : 0 < cfgT) :
    (((registerTimeoutW st eid due k).1).entries =
      (st.entries.filter (fun x => x.eid != eid)).takeWhile
          (fun x => decide (x.due ≤ due)) ++
        ⟨eid, due, k⟩ :: (st.entries.filter (fun x => x.eid != eid)).dropWhile
          (fun x => decide (x.due ≤ due))) ∧
    (((registerTimeoutW st eid due k).1).entries).Pairwise
      (fun a b => a.due ≤ b.due) ∧
    ((registerTimeoutW st eid due k).2 = true ↔
      headKey ((registerTimeoutW st eid due k).1).entries ≠
        headKey st.entries) ∧
    (∀ p rest, st.entries = p :: rest → p.due ≤ nowT →
      ((fireTimer cfgT nowT st).2.map Prod.fst =
        p :: rest.takeWhile (fun x => decide (x.due ≤ nowT)) ∧
      ∀ pr ∈ (fireTimer cfgT nowT st).2, pr.2 = false)) ∧
    ((fireTimer cfgT nowT st).1.armed = true ↔
      (fireTimer cfgT nowT st).1.entries ≠ []) := by
  refine ⟨?_, ?_, registerTimeoutW_reset_iff st eid due k hnd hfresh, ?_,
    fireTimer_armed_iff hc st⟩
  · unfold registerTimeoutW
    simp only []
    rw [removeEntry_filter hnd]
    rw [insertEntry_eq]
  · unfold registerTimeoutW
    simp only []
    rw [removeEntry_filter hnd]
    exact insertEntry_sorted _ _ (hs.filter _)
  · intro p rest hent hpd
    have hPQ : rest = rest.takeWhile (fun y => decide (y.due ≤ nowT)) ++
        rest.dropWhile (fun y => decide (y.due ≤ nowT)) :=
      (List.takeWhile_append_dropWhile ..).symm
    have hrest_s : rest.Pairwise (fun a b => a.due ≤ b.due) := by
      rw [hent] at hs
      exact (List.pairwise_cons.mp hs).2
    have htr := fireLoop_trace hc (rest.takeWhile (fun y => decide (y.due ≤ nowT)))
      (2 * st.entries.length + 2) ⟨st.entries, false⟩ p
      (rest.dropWhile (fun y => decide (y.due ≤ nowT)))
      (by rw [show (⟨st.entries, false⟩ : TState).entries = st.entries from rfl,
            hent]
          rw [← hPQ])
      hpd
      (by intro x hx
          have := List.mem_takeWhile_imp hx
          simpa using this)
      (dropWhile_future rest hrest_s)
      (by rw [← hPQ, ← hent]; exact hnd)
      (by rw [← hPQ, ← hent]; exact hs)
      (by have h1 : (rest.takeWhile
              (fun y : TEntry => decide (y.due ≤ nowT))).length ≤ rest.length :=
            (List.takeWhile_sublist _).length_le
          have h2 : st.entries.length = rest.length + 1 := by
            rw [hent]; rfl
          omega)
    rw [fireTimer_snd]
    exact ⟨htr.1, htr.2⟩

/-- Witness for `timeout_wheel_discipline`: a two-entry wheel, a fresh
registration and a fire at a time covering only the first entry. -/
theorem timeout_wheel_discipline_witness :
    (((([⟨1, 50, TKind.timeoutPend⟩, ⟨2, 200, TKind.timeoutKeep⟩] :
        List TEntry).map TEntry.eid).Nodup ∧ (0 : Nat) < 15) ∧
    ((registerTimeoutW ⟨[⟨1, 50, .timeoutPend⟩, ⟨2, 200, .timeoutKeep⟩], true⟩
        3 120 TKind.timeoutKeep).2 = true ↔
      headKey ((registerTimeoutW
          ⟨[⟨1, 50, .timeoutPend⟩, ⟨2, 200, .timeoutKeep⟩], true⟩
          3 120 TKind.timeoutKeep).1).entries ≠
        headKey [⟨1, 50, .timeoutPend⟩, ⟨2, 200, .timeoutKeep⟩]) ∧
    ((fireTimer 15 100
        ⟨[⟨1, 50, .timeoutPend⟩, ⟨2, 200, .timeoutKeep⟩], true⟩).2.map
          Prod.fst =
      ⟨1, 50, .timeoutPend⟩ :: ([⟨2, 200, TKind.timeoutKeep⟩] :
        List TEntry).takeWhile (fun x => decide (x.due ≤ 100)))) := by
  have h := timeout_wheel_discipline
    ⟨[⟨1, 50, .timeoutPend⟩, ⟨2, 200, .timeoutKeep⟩], true⟩ 3 120
    TKind.timeoutKeep 15 100 (by decide) (by decide) (by decide) (by decide)
  exact ⟨⟨by decide, by decide⟩, h.2.2.1,
    (h.2.2.2.1 ⟨1, 50, .timeoutPend⟩ [⟨2, 200, .timeoutKeep⟩] rfl
      (by decide)).1⟩

/-!  Claim C3: what `outOfSync` counts. -/

/-- Number of payloads with at least one ack. -/
def countAck (q : List PendingPayload) : Nat :=
  (q.filter PendingPayload.HasAck).length

/-- Number of payloads strictly after the head with at least one ack — the
quantity claim P3 says `outOfSync` equals. -/
def afterHeadAck (q : List PendingPayload) : Nat :=
  match q with
  | [] => 0
  | _ :: t => countAck t

/-- The head of the queue carries no ack (at quiescent points under the
completing-acks regime the drain never stops at an acked payload). -/
def headNoAck (q : List PendingPayload) : Prop :=
  match q with
  | [] => True
  | h :: _ => h.HasAck = false

/-- The inductive invariant of the amended claim: `outOfSync` equals the
after-head ack count, every acked payload is complete, the head is unacked,
and payload pids are fresh and distinct (they are allocated from
`nextPid`). -/
def Inv3 (st : PubState) : Prop :=
  st.outOfSync = (afterHeadAck st.queue : Int) ∧
  (∀ p ∈ st.queue, p.HasAck = true → p.Complete = true) ∧
  headNoAck st.queue ∧
  (∀ p ∈ st.queue, p.pid < st.nextPid) ∧
  (st.queue.map PendingPayload.pid).Nodup

/-- A fresh dispatcher state with a single endpoint. -/
def pubInit : PubState :=
  { cfgTimeout := 15, keepaliveTimeout := 900, now := 100,
    queue := [], outOfSync := 0, numPayloads := 0, regOps := [],
    eps := [⟨1, false, false, 0, false, 0, none⟩],
    readyList := [], nextSpool := none, gateOpen := true,
    shutdownOpen := true, shuttingDown := false, nextPid := 0 }

/-- C3 counterexample: dispatch payload 0 (one event) and payload 1 (two
events) to endpoint 1; a partial ack (sequence 1 of 2) on the non-head
payload raises `outOfSync` to 1, and the completing head ack then drains
payload 0 and stops at the partially acked payload 1, which becomes the
head.  The committed `outOfSync` is 1, yet no payload after the head has an
ack — refuting the claimed equality at a reachable quiescent point. -/
theorem outOfSync_drift_counterexample :
    (runD pubInit [.evReady 1, .evSpool 1, .evReady 1, .evSpool 2,
        .evAck 1 1 1, .evAck 1 0 1]).1.outOfSync = 1 ∧
    afterHeadAck (runD pubInit [.evReady 1, .evSpool 1, .evReady 1,
        .evSpool 2, .evAck 1 1 1, .evAck 1 0 1]).1.queue = 0 := by
  decide

theorem countAck_append (l1 l2 : List PendingPayload) :
    countAck (l1 ++ l2) = countAck l1 + countAck l2 := by
  simp [countAck, List.filter_append]

theorem countAck_cons_acked {p : PendingPayload} (h : p.HasAck = true)
    (l : List PendingPayload) : countAck (p :: l) = countAck l + 1 := by
  simp [countAck, List.filter_cons, h, Nat.add_comm]

theorem countAck_cons_unacked {p : PendingPayload} (h : p.HasAck = false)
    (l : List PendingPayload) : countAck (p :: l) = countAck l := by
  simp [countAck, List.filter_cons, h]

theorem inv3_of_fields {st st' : PubState} (h : Inv3 st)
    (hq : st'.queue = st.queue) (ho : st'.outOfSync = st.outOfSync)
    (hp : st'.nextPid = st.nextPid) : Inv3 st' := by
  rcases h with ⟨h1, h2, h3, h4, h5⟩
  refine ⟨?_, ?_, ?_, ?_, ?_⟩
  · rw [ho, hq, h1]
  · rw [hq]; exact h2
  · rw [hq]; exact h3
  · rw [hq, hp]; exact h4
  · rw [hq]; exact h5

theorem inv3_append {st st' : PubState} (ow sz : Nat) (h : Inv3 st)
    (hq : st'.queue = st.queue ++ [⟨st.nextPid, ow, sz, 0, 0⟩])
    (ho : st'.outOfSync = st.outOfSync)
    (hp : st'.nextPid = st.nextPid + 1) : Inv3 st' := by
  rcases h with ⟨h1, h2, h3, h4, h5⟩
  have hpl : (⟨st.nextPid, ow, sz, 0, 0⟩ : PendingPayload).HasAck = false := rfl
  refine ⟨?_, ?_, ?_, ?_, ?_⟩
  · rw [ho, hq, h1]
    congr 1
    cases hqq : st.queue with
    | nil => simp [afterHeadAck, countAck, PendingPayload.HasAck]
    | cons hd t =>
      simp only [afterHeadAck, List.cons_append]
      rw [countAck_append, countAck_cons_unacked hpl]
      rfl
  · rw [hq]
    intro x hx hha
    rcases List.mem_append.mp hx with hx1 | hx1
    · exact h2 x hx1 hha
    · rcases List.mem_singleton.mp hx1 with rfl
      exact absurd hha (by simp [hpl])
  · rw [hq]
    cases hqq : st.queue with
    | nil => exact hpl
    | cons hd t =>
      rw [hqq] at h3
      exact h3
  · rw [hq, hp]
    intro x hx
    rcases List.mem_append.mp hx with hx1 | hx1
    · have := h4 x hx1
      omega
    · rcases List.mem_singleton.mp hx1 with rfl
      simp
  · rw [hq, List.map_append]
    refine List.Nodup.append h5 (by simp) ?_
    intro a ha hb
    simp only [List.map_cons, List.map_nil, List.mem_singleton] at hb
    rcases List.mem_map.mp ha with ⟨x, hx, hxe⟩
    have := h4 x hx
    omega

theorem addReadyD_queue (st : PubState) (eid : Nat) :
    (addReadyD st eid).queue = st.queue := by
  unfold addReadyD
  cases getEp st eid <;> simp

theorem addReadyD_outOfSync (st : PubState) (eid : Nat) :
    (addReadyD st eid).outOfSync = st.outOfSync := by
  unfold addReadyD
  cases getEp st eid <;> simp

theorem addReadyD_nextPid (st : PubState) (eid : Nat) :
    (addReadyD st eid).nextPid = st.nextPid := by
  unfold addReadyD
  cases getEp st eid <;> simp

theorem addReadyD_regOps (st : PubState) (eid : Nat) :
    (addReadyD st eid).regOps = st.regOps := by
  unfold addReadyD
  cases getEp st eid <;> simp

theorem sendPayloadD_inv3 (st : PubState) (eid sz : Nat) (h : Inv3 st) :
    Inv3 (sendPayloadD st eid sz) := by
  unfold sendPayloadD
  cases hge : getEp st eid with
  | none => exact h
  | some e =>
    simp only []
    obtain ⟨hq, hnp2, hpd2, hrl, hns, hg, hoos, hro, hsd, hsdo⟩ :=
      if_register_fields st eid (st.now + st.cfgTimeout) TKind.timeoutPend
        (e.pendingCount == 0)
    generalize hG : (if (e.pendingCount == 0) = true then
        registerTimeoutD st eid (st.now + st.cfgTimeout) TKind.timeoutPend
      else st) = st1
    rw [hG] at hq hnp2 hpd2 hoos
    have h1 : Inv3 st1 := by
      rw [← hG]
      split
      · exact inv3_of_fields h (registerTimeoutD_queue ..)
          (registerTimeoutD_outOfSync ..) (registerTimeoutD_nextPid ..)
      · exact h
    split
    · exact h1
    · have happ : Inv3 ({ st1 with
          queue := st1.queue ++ [⟨st1.nextPid, eid, sz, 0, 0⟩],
          numPayloads := st1.numPayloads + 1,
          nextPid := st1.nextPid + 1 } : PubState) :=
        inv3_append eid sz h1 rfl rfl rfl
      split
      · exact inv3_of_fields happ rfl rfl rfl
      · exact happ

theorem registerReadyD_inv3 (st : PubState) (eid : Nat) (h : Inv3 st) :
    Inv3 (registerReadyD st eid) := by
  unfold registerReadyD
  cases hge : getEp st eid with
  | none => exact h
  | some e =>
    simp only []
    split
    · exact h
    · split
      · split
        · exact h
        · exact inv3_of_fields h rfl rfl rfl
      · split
        · exact inv3_of_fields (sendPayloadD_inv3 st eid _ h) rfl rfl rfl
        · split
          · refine inv3_of_fields h ?_ ?_ ?_
            · rw [registerTimeoutD_queue, addReadyD_queue]
            · rw [registerTimeoutD_outOfSync, addReadyD_outOfSync]
            · rw [registerTimeoutD_nextPid, addReadyD_nextPid]
          · exact inv3_of_fields h (addReadyD_queue ..) (addReadyD_outOfSync ..)
              (addReadyD_nextPid ..)

theorem afterHeadAck_of_headNoAck (q : List PendingPayload) (h : headNoAck q) :
    afterHeadAck q = countAck q := by
  cases q with
  | nil => rfl
  | cons hd t =>
    have h' : hd.HasAck = false := h
    show countAck t = countAck (hd :: t)
    rw [countAck_cons_unacked h']

theorem countAck_eq_length (l : List PendingPayload)
    (h : ∀ x ∈ l, x.HasAck = true) : countAck l = l.length := by
  unfold countAck
  rw [List.filter_eq_self.mpr h]

theorem ackedDone_hasAck {x : PendingPayload} (h : ackedDone x = true) :
    x.HasAck = true := by
  unfold ackedDone at h
  simp only [Bool.and_eq_true] at h
  exact h.1

theorem dropWhile_head_not (l : List PendingPayload) (b : PendingPayload)
    (rest : List PendingPayload)
    (h : l.dropWhile ackedDone = b :: rest) : ackedDone b = false := by
  induction l with
  | nil => exact absurd h (by simp)
  | cons x t ih =>
    rw [List.dropWhile_cons] at h
    by_cases hx : ackedDone x = true
    · rw [if_pos hx] at h
      exact ih h
    · rw [if_neg hx] at h
      cases h
      simpa using hx

theorem dropWhile_headNoAck (l2 : List PendingPayload)
    (h2 : ∀ x ∈ l2, x.HasAck = true → x.Complete = true) :
    headNoAck (l2.dropWhile ackedDone) := by
  cases hB : l2.dropWhile ackedDone with
  | nil => trivial
  | cons b rest =>
    show b.HasAck = false
    have hbd : ackedDone b = false := dropWhile_head_not l2 b rest hB
    have hbm : b ∈ l2 := by
      have hsub := (@List.dropWhile_sublist _ l2 ackedDone).subset
      exact hsub (hB ▸ List.mem_cons_self b rest)
    cases hA : b.HasAck with
    | false => rfl
    | true =>
      have hc := h2 b hbm hA
      rw [ackedDone, hA, hc] at hbd
      exact absurd hbd (by simp)

theorem countAck_split (l2 : List PendingPayload) :
    countAck l2 = (l2.takeWhile ackedDone).length +
      countAck (l2.dropWhile ackedDone) := by
  conv_lhs => rw [← List.takeWhile_append_dropWhile ackedDone l2]
  rw [countAck_append]
  congr 1
  exact countAck_eq_length _ (fun x hx =>
    ackedDone_hasAck (List.mem_takeWhile_imp hx))

theorem drainQueueSpec_drain (p1 : PendingPayload) (l2 : List PendingPayload)
    (hp1 : ackedDone p1 = true)
    (h2 : ∀ x ∈ l2, x.HasAck = true → x.Complete = true) :
    drainQueueSpec (p1 :: l2) = l2.dropWhile ackedDone := by
  unfold drainQueueSpec
  rw [drop_drainCount]
  have hdw : (p1 :: l2).dropWhile ackedDone = l2.dropWhile ackedDone := by
    rw [List.dropWhile_cons, if_pos hp1]
  rw [hdw]
  cases hB : l2.dropWhile ackedDone with
  | nil => rfl
  | cons b rest =>
    have hbna : b.HasAck = false := by
      have := dropWhile_headNoAck l2 h2
      rw [hB] at this
      exact this
    simp [hbna]

theorem drainCount_drain (p1 : PendingPayload) (l2 : List PendingPayload)
    (hp1 : ackedDone p1 = true) :
    drainCount (p1 :: l2) = (l2.takeWhile ackedDone).length + 1 := by
  rw [drainCount_cons_done hp1]
  rfl

theorem processHeadAck_queue (q : List PendingPayload) (oos np : Int) :
    (processHeadAck q oos np).queue = drainQueueSpec q := by
  show (drainLoop q (oos + 1) oos np []).queue = drainQueueSpec q
  rw [drainLoop_eq]

theorem processHeadAck_outOfSync (q : List PendingPayload) (oos np : Int) :
    (processHeadAck q oos np).outOfSync =
      if drainCount q = 0 then oos else oos + 1 - drainCount q := by
  show (drainLoop q (oos + 1) oos np []).outOfSync =
    if drainCount q = 0 then oos else oos + 1 - drainCount q
  rw [drainLoop_eq]

theorem inv3_of_parts {st' : PubState} (q : List PendingPayload) (n : Nat)
    (hq : st'.queue = q) (hn : st'.nextPid = n)
    (h1 : st'.outOfSync = (afterHeadAck q : Int))
    (h2 : ∀ p ∈ q, p.HasAck = true → p.Complete = true)
    (h3 : headNoAck q)
    (h4 : ∀ p ∈ q, p.pid < n)
    (h5 : (q.map PendingPayload.pid).Nodup) : Inv3 st' :=
  ⟨by rw [h1, hq], by rw [hq]; exact h2, by rw [hq]; exact h3,
    by rw [hq, hn]; exact h4, by rw [hq]; exact h5⟩

theorem map_replace_id (l : List PendingPayload) (p p1 : PendingPayload)
    (h : ∀ x ∈ l, x.pid ≠ p.pid) :
    l.map (fun x => if x.pid == p.pid then p1 else x) = l := by
  induction l with
  | nil => rfl
  | cons x t ih =>
    simp only [List.map_cons]
    rw [if_neg (by simpa using h x (List.mem_cons_self x t)),
      ih (fun y hy => h y (List.mem_cons_of_mem x hy))]

theorem map_replace_middle (l1 l2 : List PendingPayload) (p p1 : PendingPayload)
    (h1 : ∀ x ∈ l1, x.pid ≠ p.pid) (h2 : ∀ x ∈ l2, x.pid ≠ p.pid) :
    (l1 ++ p :: l2).map (fun x => if x.pid == p.pid then p1 else x) =
      l1 ++ p1 :: l2 := by
  rw [List.map_append, List.map_cons, map_replace_id l1 p p1 h1,
    map_replace_id l2 p p1 h2, if_pos (by simp)]

theorem nodup_middle_pids (l1 l2 : List PendingPayload) (p : PendingPayload)
    (hnd : ((l1 ++ p :: l2).map PendingPayload.pid).Nodup) :
    (∀ x ∈ l1, x.pid ≠ p.pid) ∧ (∀ x ∈ l2, x.pid ≠ p.pid) := by
  rw [List.map_append, List.map_cons, List.nodup_append] at hnd
  obtain ⟨hn1, hn2, hdisj⟩ := hnd
  constructor
  · intro x hx he
    exact hdisj (List.mem_map_of_mem _ hx)
      (by rw [he]; exact List.mem_cons_self _ _)
  · intro x hx he
    exact (List.nodup_cons.mp hn2).1 (he ▸ List.mem_map_of_mem _ hx)

theorem ackRearm_inv3 (st : PubState) (eid : Nat) (h : Inv3 st) :
    Inv3 (ackRearm st eid) := by
  unfold ackRearm
  split <;>
    exact inv3_of_fields h (registerTimeoutD_queue ..)
      (registerTimeoutD_outOfSync ..) (registerTimeoutD_nextPid ..)

theorem ackUnfull_inv3 (st : PubState) (eid : Nat) (h : Inv3 st) :
    Inv3 (ackUnfull st eid) := by
  unfold ackUnfull
  split
  · split
    · exact registerReadyD_inv3 _ _ h
    · exact h
  · exact h

set_option maxHeartbeats 1600000 in
theorem processAckD_inv3 (st : PubState) (eid pid seq : Nat) (h : Inv3 st)
    (hcompl : ∀ p, findPayload st eid pid = some p →
      ackAdmissible p seq = true → seq = p.size) :
    Inv3 (processAckD st eid pid seq) := by
  unfold processAckD
  cases hge : getEp st eid with
  | none => exact h
  | some e =>
    cases hfp : findPayload st eid pid with
    | none => exact h
    | some p =>
      simp only []
      by_cases hadm : ackAdmissible p seq = true
      case neg =>
        rw [if_neg hadm]
        exact h
      case pos =>
      rw [if_pos hadm]
      have hseq : seq = p.size := hcompl p hfp hadm
      have hadm' : seq ≠ 0 ∧ p.ackCount < p.size ∧ p.ackCount ≤ seq ∧
          seq ≤ p.size := by
        have hx := hadm
        unfold ackAdmissible at hx
        simp only [Bool.and_eq_true, bne_iff_ne, ne_eq, decide_eq_true_eq] at hx
        tauto
      obtain ⟨hs0, hlt, hle, hub⟩ := hadm'
      have hfp' : st.queue.find? (fun x => x.owner == eid && x.pid == pid) =
          some p := hfp
      have hmem : p ∈ st.queue := List.mem_of_find?_eq_some hfp'
      have hprop := List.find?_some hfp'
      have hpid : p.pid = pid := by
        simp only [Bool.and_eq_true, beq_iff_eq] at hprop
        exact hprop.2
      have hnc : p.Complete = false := by
        unfold PendingPayload.Complete
        simp only [beq_eq_false_iff_ne, ne_eq]
        omega
      have hA : p.HasAck = false := by
        cases hx : p.HasAck with
        | false => rfl
        | true => exact absurd (h.2.1 p hmem hx) (by simp [hnc])
      have hack0 : p.ackCount = 0 := by
        unfold PendingPayload.HasAck at hA
        simpa using hA
      have hmax : max p.ackCount seq = seq := by omega
      have hp1c : ({ p with ackCount := max p.ackCount seq } :
          PendingPayload).Complete = true := by
        unfold PendingPayload.Complete
        simp only [beq_iff_eq]
        omega
      have hp1a : ({ p with ackCount := max p.ackCount seq } :
          PendingPayload).HasAck = true := by
        unfold PendingPayload.HasAck
        simp only [hmax, bne_iff_ne, ne_eq]
        exact hs0
      obtain ⟨l1, l2, hsp⟩ := List.append_of_mem hmem
      have hnd0 := h.2.2.2.2
      rw [hsp] at hnd0
      obtain ⟨h1s, h2s⟩ := nodup_middle_pids l1 l2 p hnd0
      have hq1 : st.queue.map (fun x => if x.pid == p.pid then
            { p with ackCount := max p.ackCount seq } else x) =
          l1 ++ { p with ackCount := max p.ackCount seq } :: l2 := by
        rw [hsp]
        exact map_replace_middle l1 l2 p _ h1s h2s
      apply ackUnfull_inv3
      apply ackRearm_inv3
      simp only [setEp_queue, setEp_outOfSync, setEp_numPayloads,
        setEp_regOps, setEp_nextPid]
      rw [hq1]
      cases l1 with
      | nil =>
        simp only [List.nil_append]
        rw [if_pos (show (({ p with ackCount := max p.ackCount seq } :
            PendingPayload).pid == pid) = true by simp [hpid])]
        have hado : ackedDone ({ p with ackCount := max p.ackCount seq } :
            PendingPayload) = true := by
          simp [ackedDone, hp1a, hp1c]
        have hmem_st : ∀ x ∈ l2, x ∈ st.queue := by
          intro x hx
          rw [hsp]
          exact List.mem_cons_of_mem p hx
        have h2' : ∀ x ∈ l2, x.HasAck = true → x.Complete = true :=
          fun x hx => h.2.1 x (hmem_st x hx)
        have h4' : ∀ x ∈ l2, x.pid < st.nextPid :=
          fun x hx => h.2.2.2.1 x (hmem_st x hx)
        have hndl2 : (l2.map PendingPayload.pid).Nodup := by
          simp only [List.nil_append, List.map_cons, List.nodup_cons] at hnd0
          exact hnd0.2
        have hBsub : List.Sublist (l2.dropWhile ackedDone) l2 :=
          List.dropWhile_sublist _
        have hoos : st.outOfSync = (countAck l2 : Int) := by
          rw [h.1, hsp]
          rfl
        refine inv3_of_parts (l2.dropWhile ackedDone) st.nextPid ?_ ?_ ?_ ?_ ?_ ?_ ?_
        · show (processHeadAck ({ p with ackCount := max p.ackCount seq } :: l2)
              st.outOfSync st.numPayloads).queue = l2.dropWhile ackedDone
          rw [processHeadAck_queue]
          exact drainQueueSpec_drain _ l2 hado h2'
        · simp
        · show (processHeadAck ({ p with ackCount := max p.ackCount seq } :: l2)
              st.outOfSync st.numPayloads).outOfSync =
            (afterHeadAck (l2.dropWhile ackedDone) : Int)
          rw [processHeadAck_outOfSync, drainCount_drain _ _ hado,
            if_neg (by omega), hoos,
            afterHeadAck_of_headNoAck _ (dropWhile_headNoAck l2 h2'),
            countAck_split l2]
          push_cast
          omega
        · intro x hx
          exact h2' x (hBsub.subset hx)
        · exact dropWhile_headNoAck l2 h2'
        · intro x hx
          exact h4' x (hBsub.subset hx)
        · exact (hBsub.map PendingPayload.pid).nodup hndl2
      | cons hd l1' =>
        simp only [List.cons_append]
        have hhd : ¬ ((hd.pid == pid) = true) := by
          simp only [beq_iff_eq]
          rw [← hpid]
          exact h1s hd (List.mem_cons_self hd l1')
        rw [if_neg hhd, if_pos (show (p.ackCount == 0) = true by simp [hack0])]
        have hmem_st : ∀ x ∈ hd :: (l1' ++ p :: l2), x ∈ st.queue := by
          intro x hx
          rw [hsp]
          exact hx
        refine inv3_of_parts
          (hd :: (l1' ++ { p with ackCount := max p.ackCount seq } :: l2))
          st.nextPid ?_ ?_ ?_ ?_ ?_ ?_ ?_
        · simp
        · simp
        · show st.outOfSync + 1 = (afterHeadAck (hd :: (l1' ++
              { p with ackCount := max p.ackCount seq } :: l2)) : Int)
          have he1 : afterHeadAck (hd :: (l1' ++
              { p with ackCount := max p.ackCount seq } :: l2)) =
              countAck l1' + countAck l2 + 1 := by
            show countAck (l1' ++
              { p with ackCount := max p.ackCount seq } :: l2) = _
            rw [countAck_append, countAck_cons_acked hp1a]
            omega
          have he2 : afterHeadAck ((hd :: l1') ++ p :: l2) =
              countAck l1' + countAck l2 := by
            show countAck (l1' ++ p :: l2) = _
            rw [countAck_append, countAck_cons_unacked hA]
          rw [he1, h.1, hsp, he2]
          push_cast
          omega
        · intro x hx hxa
          rcases List.mem_cons.mp hx with rfl | hx1
          · exact h.2.1 x (hmem_st x (List.mem_cons_self _ _)) hxa
          · rcases List.mem_append.mp hx1 with hx2 | hx2
            · exact h.2.1 x (hmem_st x (List.mem_cons_of_mem _
                (List.mem_append_left _ hx2))) hxa
            · rcases List.mem_cons.mp hx2 with rfl | hx3
              · exact hp1c
              · exact h.2.1 x (hmem_st x (List.mem_cons_of_mem _
                  (List.mem_append_right _ (List.mem_cons_of_mem _ hx3)))) hxa
        · have h3' := h.2.2.1
          rw [hsp] at h3'
          exact h3'
        · intro x hx
          rcases List.mem_cons.mp hx with rfl | hx1
          · exact h.2.2.2.1 x (hmem_st x (List.mem_cons_self _ _))
          · rcases List.mem_append.mp hx1 with hx2 | hx2
            · exact h.2.2.2.1 x (hmem_st x (List.mem_cons_of_mem _
                (List.mem_append_left _ hx2)))
            · rcases List.mem_cons.mp hx2 with rfl | hx3
              · exact h.2.2.2.1 p hmem
              · exact h.2.2.2.1 x (hmem_st x (List.mem_cons_of_mem _
                  (List.mem_append_right _ (List.mem_cons_of_mem _ hx3))))
        · have hmapeq : (hd :: (l1' ++
              { p with ackCount := max p.ackCount seq } :: l2)).map
                PendingPayload.pid =
              ((hd :: l1') ++ p :: l2).map PendingPayload.pid := by
            simp [List.map_append]
          rw [hmapeq]
          exact hnd0

theorem processPongD_inv3 (st : PubState) (eid : Nat) (h : Inv3 st) :
    Inv3 (processPongD st eid) := by
  unfold processPongD
  cases getEp st eid with
  | none => exact h
  | some e =>
    simp only []
    by_cases hp : (!e.pinging) = true
    · rw [if_pos hp]
      exact h
    · rw [if_neg hp]
      by_cases hn : (e.pendingCount == 0) = true
      · rw [if_pos hn]
        refine inv3_of_fields h ?_ ?_ ?_ <;>
          simp [registerTimeoutD_queue, registerTimeoutD_outOfSync,
            registerTimeoutD_nextPid]
      · rw [if_neg hn]
        exact inv3_of_fields h (setEp_queue _ _) (setEp_outOfSync _ _)
          (setEp_nextPid _ _)

/-- Claim C3 (amended).  The claimed quiescent equality `outOfSync = number
of payloads strictly after the head with an ack` is refuted by
`outOfSync_drift_counterexample`: when the head-ack drain stops at a
partially acked payload, the commit inside the loop (publisher.go line 263)
leaves `outOfSync` one above the after-head ack count, permanently.  Under
the completing-acks regime — every accepted ack carries the payload's full
size, so partial acks never occur — the equality is an inductive invariant:
`Inv3`, whose first conjunct is the claimed equality (together with the
facts making it inductive: acked payloads are complete, the head is unacked,
pids are fresh and distinct), is preserved by every dispatcher event.  The
first-ack of a non-head payload increments `outOfSync` by one and the
head-ack drain decrements it once per payload marked off past the head,
exactly restoring the count. -/
theorem outOfSync_tracking_amended (st : PubState) (ev : PubEvent)
    (h : Inv3 st)
    (hc : ∀ eid pid seq, ev = PubEvent.evAck eid pid seq →
      ∀ p, findPayload st eid pid = some p → ackAdmissible p seq = true →
        seq = p.size) :
    Inv3 (stepD st ev).1 := by
  cases ev with
  | evReady eid => exact registerReadyD_inv3 st eid h
  | evSpool sz =>
    unfold stepD
    simp only []
    by_cases hg : st.gateOpen = true
    · rw [if_pos hg]
      cases hrl : st.readyList with
      | nil =>
        exact inv3_of_fields h rfl rfl rfl
      | cons hd t =>
        simp only []
        cases hep : getEp st hd with
        | some e =>
          simp only []
          have h2 := sendPayloadD_inv3 (setEp st { e with Ready := false })
            hd sz (inv3_of_fields h (setEp_queue _ _) (setEp_outOfSync _ _)
              (setEp_nextPid _ _))
          exact inv3_of_fields h2 rfl rfl rfl
        | none =>
          simp only []
          exact inv3_of_fields (sendPayloadD_inv3 st hd sz h) rfl rfl rfl
    · rw [if_neg hg]
      exact h
  | evAck eid pid seq =>
    show Inv3 (processAckD st eid pid seq)
    exact processAckD_inv3 st eid pid seq h (hc eid pid seq rfl)
  | evPong eid => exact processPongD_inv3 st eid h
  | evFail eid => exact h
  | evTimer => exact h
  | evStats => exact h
  | evShutdown =>
    unfold stepD
    simp only []
    by_cases hso : st.shutdownOpen = true
    · rw [if_pos hso]
      by_cases hnp : (st.numPayloads == 0) = true
      · rw [if_pos hnp]
        exact h
      · rw [if_neg hnp]
        exact inv3_of_fields h rfl rfl rfl
    · rw [if_neg hso]
      exact h

/-- A dispatcher state with one endpoint holding one in-flight unacked
payload of size 2, satisfying `Inv3`. -/
def ackWitState : PubState :=
  { cfgTimeout := 15, keepaliveTimeout := 900, now := 100,
    queue := [⟨0, 1, 2, 0, 0⟩], outOfSync := 0, numPayloads := 1,
    regOps := [],
    eps := [⟨1, false, false, 1, false, 115, some TKind.timeoutPend⟩],
    readyList := [], nextSpool := none, gateOpen := true,
    shutdownOpen := true, shuttingDown := false, nextPid := 1 }

/-- Witness for C3 (amended): a completing ack (sequence 2 of size 2) on the
head payload of `ackWitState` preserves the invariant. -/
theorem outOfSync_tracking_amended_witness :
    Inv3 (stepD ackWitState (PubEvent.evAck 1 0 2)).1 :=
  outOfSync_tracking_amended ackWitState (PubEvent.evAck 1 0 2)
    ⟨by decide, by decide, rfl, by decide, by decide⟩
    (by
      intro eid pid seq hev p hf ha
      cases hev
      have hp : some p = some (⟨0, 1, 2, 0, 0⟩ : PendingPayload) :=
        hf.symm.trans (show findPayload ackWitState 1 0 =
          some ⟨0, 1, 2, 0, 0⟩ from rfl)
      injection hp with hp2
      rw [hp2])

end LogCourier
